import Mathlib

/-!
Shallow embedding of the GupShup-Cafe discussion server
(src/server/src/socket/roomManager.js and src/server/src/socket/socketHandlers.js).

Modelling conventions:
* JS objects become structures; the `rooms` Map becomes an association list in
  insertion order (Map.set on a present key replaces in place, Map.delete removes).
* Participant identity, room ids and transport (socket) ids are `String`.
* `Date` values are irrelevant to every claim and are modelled as `0`.
* `setInterval`/`clearInterval`: live interval handles are a list of records
  `(handle, roomId, gen)`; `gen` is an allocation stamp giving JS object identity
  of the room object captured by the interval callback (a room deleted from the
  Map and later re-created is a different object with a fresh `gen`).
* `checkAndStartDiscussion` contains `await generateDiscussionTopic()`; the code
  before the await (the start guard) runs synchronously inside the triggering
  handler, the continuation after the await runs later as its own turn of the
  event loop.  The synchronous prefix is `checkAndStartDiscussionBegin`, which
  records a pending continuation; the continuation is the separate event
  `topicResolved`.  The topic value is external input carried by that event.
* The analytics collaborators (saveSession / updateSessionEnd / recordTopicUsage,
  in the database module) are fire-and-forget and touch no room state; they are
  not modelled.
-/

namespace GupShup

/-- A participant entry stored in a room's roster (roomManager.js, addUserToRoom). -/
structure Participant where
  id : String
  socketId : String
  anonymousName : String
  name : String
  campus : String
  location : String
  role : String
  isReady : Bool
  joinedAt : Nat
deriving Repr, DecidableEq

/-- User data handed to addUserToRoom; `role` may be absent (defaults to listener). -/
structure UserData where
  id : String
  socketId : String
  anonymousName : String
  name : String
  campus : String
  location : String
  role : Option String
  isReady : Bool
  joinedAt : Nat
deriving Repr, DecidableEq

/-- The per-room discussion record (roomManager.js, getRoom). -/
structure Discussion where
  active : Bool
  topic : Option String
  currentSpeakerIndex : Nat
  speakingTime : Int
  timeRemaining : Int
  round : Nat
  timer : Option Nat
  startedAt : Option Nat
  endedAt : Option Nat
deriving Repr, DecidableEq

/-- The discussion record a fresh room is created with (getRoom). -/
def initialDiscussion : Discussion :=
  { active := false, topic := none, currentSpeakerIndex := 0, speakingTime := 60,
    timeRemaining := 0, round := 1, timer := none, startedAt := none, endedAt := none }

/-- A room object.  `gen` is the allocation stamp standing for JS object identity. -/
structure Room where
  id : String
  gen : Nat
  participants : List Participant
  discussion : Discussion
deriving Repr, DecidableEq

/-- A live interval handle created by startSpeakingTimer: the handle number, the
room id the callback closes over, and the identity of the captured room object. -/
structure TimerRec where
  handle : Nat
  roomId : String
  gen : Nat
deriving Repr, DecidableEq

/-- The RoomManager singleton state plus the set of live interval handles. -/
structure Reg where
  rooms : List (String × Room)
  timers : List TimerRec
  nextHandle : Nat
  nextGen : Nat
deriving Repr, DecidableEq

/-- Lookup in the rooms Map (no creation). -/
def findRoom (g : Reg) (roomId : String) : Option Room :=
  (g.rooms.find? (fun kv => kv.1 = roomId)).map Prod.snd

/-- Overwrite the entry of an existing key (JS mutates the room object in place). -/
def setRoom (g : Reg) (roomId : String) (r : Room) : Reg :=
  { g with rooms := g.rooms.map (fun kv => if kv.1 = roomId then (roomId, r) else kv) }

/-- The room object created by getRoom on a miss. -/
def freshRoom (roomId : String) (gen : Nat) : Room :=
  { id := roomId, gen := gen, participants := [], discussion := initialDiscussion }

/-- The registry after getRoom registers a fresh room on a miss. -/
def withFresh (g : Reg) (roomId : String) : Reg :=
  { g with rooms := g.rooms ++ [(roomId, freshRoom roomId g.nextGen)],
           nextGen := g.nextGen + 1 }

/-- RoomManager.getRoom: get-or-create.  Returns the updated registry and the room. -/
def getRoom (g : Reg) (roomId : String) : Reg × Room :=
  match findRoom g roomId with
  | some r => (g, r)
  | none => (withFresh g roomId, freshRoom roomId g.nextGen)

/-- clearInterval on the handle stored in a discussion's timer slot (if any). -/
def clearTimerHandle (g : Reg) (h : Option Nat) : Reg :=
  match h with
  | none => g
  | some h => { g with timers := g.timers.filter (fun t => t.handle ≠ h) }

/-- RoomManager.cleanupRoom: clear any active timer, then delete the room. -/
def cleanupRoom (g : Reg) (roomId : String) : Reg :=
  match findRoom g roomId with
  | none => g
  | some r =>
    let g' := clearTimerHandle g r.discussion.timer
    { g' with rooms := g'.rooms.filter (fun kv => kv.1 ≠ roomId) }

/-- RoomManager.removeUserFromRoom.  `skipCleanup` is the _skipCleanup flag the
manager sets around the removal nested inside addUserToRoom. -/
def removeUserFromRoom (g : Reg) (roomId userId : String) (skipCleanup : Bool) : Reg :=
  let gr := getRoom g roomId
  let room := { gr.2 with participants := gr.2.participants.filter (fun p => p.id ≠ userId) }
  let g' := setRoom gr.1 roomId room
  if room.participants.isEmpty ∧ skipCleanup = false then cleanupRoom g' roomId else g'

/-- The participant record pushed by addUserToRoom (role defaults to listener). -/
def mkParticipant (u : UserData) : Participant :=
  { id := u.id, socketId := u.socketId, anonymousName := u.anonymousName, name := u.name,
    campus := u.campus, location := u.location, role := u.role.getD "listener",
    isReady := u.isReady, joinedAt := u.joinedAt }

/-- RoomManager.addUserToRoom: get-or-create the room, remove any entry with the
same id (reconnection; cleanup suppressed), then push the new entry. -/
def addUserToRoom (g : Reg) (roomId : String) (u : UserData) : Reg :=
  let gr := getRoom g roomId
  let g1 := removeUserFromRoom gr.1 roomId u.id true
  -- the skip-cleanup removal never deletes the room, so this refetch yields the
  -- same object the JS code kept a reference to
  let gr2 := getRoom g1 roomId
  setRoom gr2.1 roomId
    { gr2.2 with participants := gr2.2.participants ++ [mkParticipant u] }

/-- First-match update, the List analogue of Array.prototype.find + mutation. -/
def updateFirst (ps : List Participant) (userId : String) (f : Participant → Participant) :
    List Participant :=
  match ps with
  | [] => []
  | p :: rest => if p.id = userId then f p :: rest else p :: updateFirst rest userId f

/-- RoomManager.updateUser, specialised to the only update the code performs
(the isReady flag); updates the first participant with the given id, if any. -/
def updateUser (g : Reg) (roomId userId : String) (ready : Bool) : Reg :=
  let gr := getRoom g roomId
  let ps := updateFirst gr.2.participants userId (fun p => { p with isReady := ready })
  setRoom gr.1 roomId { gr.2 with participants := ps }

/-- RoomManager.changeUserRole.  Returns the updated registry and the success flag.
The role test happens before any room lookup; the lookup creates the room on a miss. -/
def changeUserRole (g : Reg) (roomId userId newRole : String) : Reg × Bool :=
  if ¬(newRole = "speaker" ∨ newRole = "listener") then (g, false)
  else
    let gr := getRoom g roomId
    if gr.2.participants.any (fun p => p.id = userId) then
      let ps := updateFirst gr.2.participants userId (fun p => { p with role := newRole })
      (setRoom gr.1 roomId { gr.2 with participants := ps }, true)
    else (gr.1, false)

/-- Number of speakers in a room (roomManager.getRoleStats). -/
def speakersCount (r : Room) : Nat :=
  (r.participants.filter (fun p => p.role = "speaker")).length

/-- RoomManager.canBecomeSpeaker (via getRoleStats → getRoom, so it creates the
room on a miss).  maxSpeakers is 6 at the only call site. -/
def canBecomeSpeaker (g : Reg) (roomId : String) (maxSpeakers : Nat) : Reg × Bool :=
  let gr := getRoom g roomId
  (gr.1, speakersCount gr.2 < maxSpeakers)

/-- RoomManager.getRoomParticipants: creates the room on a miss and returns the
roster.  (The JS version projects each entry to the wire payload fields
id/anonymousName/isReady/joinedAt/socketId; no claim inspects that projection,
so the full entries are returned.) -/
def getRoomParticipants (g : Reg) (roomId : String) : Reg × List Participant :=
  let gr := getRoom g roomId
  (gr.1, gr.2.participants)

/-- The view produced by RoomManager.getDiscussionState.  `currentSpeaker` is
`participants[currentSpeakerIndex]`, so `none` when the index is out of bounds. -/
structure DiscussionView where
  active : Bool
  topic : Option String
  currentSpeaker : Option Participant
  timeRemaining : Int
  round : Nat
  participantCount : Nat
deriving Repr, DecidableEq

/-- RoomManager.getDiscussionState (creates the room on a miss, like every
getRoom-based accessor). -/
def getDiscussionState (g : Reg) (roomId : String) : Reg × DiscussionView :=
  let gr := getRoom g roomId
  (gr.1,
   { active := gr.2.discussion.active, topic := gr.2.discussion.topic,
     currentSpeaker :=
       if gr.2.discussion.active ∧ 0 < gr.2.participants.length then
         gr.2.participants.get? gr.2.discussion.currentSpeakerIndex
       else none,
     timeRemaining := gr.2.discussion.timeRemaining, round := gr.2.discussion.round,
     participantCount := gr.2.participants.length })

/-! ### socketHandlers.js: server state, emissions, engine functions -/

/-- A per-connection record: the socket id, the userData captured from the
handshake at connect time, socket.currentRoom, and the socket.io rooms the
socket has joined (its automatic own-id room is kept implicit). -/
structure SocketSt where
  sockId : String
  userData : UserData
  currentRoom : Option String
  joinedRooms : List String
deriving Repr, DecidableEq

/-- A checkAndStartDiscussion call suspended at `await generateDiscussionTopic()`:
the continuation closed over the room id, the room object (`gen`) and the
participants array value captured before the await. -/
structure Pending where
  roomId : String
  gen : Nat
  captured : List Participant
deriving Repr, DecidableEq

/-- Whole-server state: RoomManager registry + live timers, connected sockets,
and suspended discussion starts. -/
structure ServerState where
  reg : Reg
  sockets : List SocketSt
  pending : List Pending
deriving Repr, DecidableEq

/-- Environment configuration read by the handlers:
MIN_PARTICIPANTS (default 1) and DEFAULT_SPEAKING_TIME (default 60). -/
structure Config where
  minParticipants : Nat
  speakingTime : Int
deriving Repr, DecidableEq

/-- The room-directed events the engine emits (io.to(roomId).emit ...). -/
inductive Emission where
  | timerUpdate (roomId : String) (t : Int)
  | speakerChanged (roomId : String) (speaker : Option Participant) (timeRemaining : Int)
      (round : Nat)
  | discussionEnded (roomId : String)
  | discussionStarted (roomId : String) (topic : String) (firstSpeaker : Option Participant)
      (duration : Int)
deriving Repr, DecidableEq

/-- startSpeakingTimer: fetch the room (creating on a miss), bail out unless the
discussion is active, clear any handle in the timer slot, create a fresh
interval and store its handle in the slot. -/
def startSpeakingTimer (g : Reg) (roomId : String) : Reg :=
  let gr := getRoom g roomId
  if ¬gr.2.discussion.active then gr.1
  else
    let g1 := clearTimerHandle gr.1 gr.2.discussion.timer
    let h := g1.nextHandle
    let g2 := { g1 with timers := g1.timers ++ [⟨h, roomId, gr.2.gen⟩],
                        nextHandle := h + 1 }
    setRoom g2 roomId { gr.2 with discussion := { gr.2.discussion with timer := some h } }

/-- endDiscussion: clear the timer slot, mark the discussion ended, emit
discussion-ended.  (The session-analytics write is fire-and-forget, unmodelled.) -/
def endDiscussion (g : Reg) (roomId : String) : Reg × List Emission :=
  let gr := getRoom g roomId
  let g1 := clearTimerHandle gr.1 gr.2.discussion.timer
  let room := { gr.2 with discussion :=
    { gr.2.discussion with timer := none, active := false, endedAt := some 0 } }
  (setRoom g1 roomId room, [Emission.discussionEnded roomId])

/-- advanceToNextSpeaker: the single turn-advance algorithm used both on timer
expiry and on an explicit next-speaker request. -/
def advanceToNextSpeaker (g : Reg) (roomId : String) : Reg × List Emission :=
  let gr := getRoom g roomId
  if ¬gr.2.discussion.active then (gr.1, [])
  else if gr.2.participants.length = 0 then (gr.1, [])
  else
    let g1 := clearTimerHandle gr.1 gr.2.discussion.timer
    let idx := (gr.2.discussion.currentSpeakerIndex + 1) % gr.2.participants.length
    let rnd := if idx = 0 then gr.2.discussion.round + 1 else gr.2.discussion.round
    let d1 := { gr.2.discussion with timer := none, currentSpeakerIndex := idx, round := rnd }
    let g2 := setRoom g1 roomId { gr.2 with discussion := d1 }
    if idx = 0 ∧ rnd > 3 then endDiscussion g2 roomId
    else
      let d2 := { d1 with timeRemaining := d1.speakingTime }
      let g3 := setRoom g1 roomId { gr.2 with discussion := d2 }
      let nextSpeaker := gr.2.participants.get? idx
      (startSpeakingTimer g3 roomId,
       [Emission.speakerChanged roomId nextSpeaker d2.timeRemaining rnd])

/-- checkDiscussionContinuation: after a disconnect, end the discussion if the
participant count fell below the minimum. -/
def checkDiscussionContinuation (cfg : Config) (g : Reg) (roomId : String) :
    Reg × List Emission :=
  let gr := getRoom g roomId
  if ¬gr.2.discussion.active then (gr.1, [])
  else if gr.2.participants.length < cfg.minParticipants then endDiscussion gr.1 roomId
  else (gr.1, [])

/-- The synchronous prefix of checkAndStartDiscussion, up to the await of the
external topic source: evaluate the start guard; when it passes, record the
suspended continuation (which captured the room object and its participants
array) as pending. -/
def checkAndStartDiscussionBegin (cfg : Config) (s : ServerState) (roomId : String) :
    ServerState :=
  let gr := getRoom s.reg roomId
  let readyCount := (gr.2.participants.filter (fun p => p.isReady)).length
  if gr.2.participants.length ≥ cfg.minParticipants ∧
      readyCount ≥ cfg.minParticipants ∧ ¬gr.2.discussion.active then
    { s with reg := gr.1, pending := s.pending ++ [⟨roomId, gr.2.gen, gr.2.participants⟩] }
  else { s with reg := gr.1 }

/-- The continuation of checkAndStartDiscussion after the awaited topic resolves.
The code does not re-check the start guard here: it overwrites the captured room
object's discussion (dropping, without clearing, whatever handle its timer slot
held) and calls startSpeakingTimer.  If the captured object is no longer the
registered room (it was deleted meanwhile), the overwrite hits a dead object and
is invisible; startSpeakingTimer then refetches by id — creating an idle room on
a miss — and starts nothing because that room is not active. -/
def resolveTopic (cfg : Config) (s : ServerState) (i : Nat) (topic : String) :
    ServerState × List Emission :=
  match s.pending.get? i with
  | none => (s, [])
  | some pd =>
    let s1 := { s with pending := s.pending.eraseIdx i }
    let newDisc : Discussion :=
      { active := true, topic := some topic, currentSpeakerIndex := 0,
        speakingTime := cfg.speakingTime, timeRemaining := cfg.speakingTime,
        round := 1, timer := none, startedAt := some 0, endedAt := none }
    let g :=
      match findRoom s1.reg pd.roomId with
      | some room =>
        if room.gen = pd.gen then setRoom s1.reg pd.roomId { room with discussion := newDisc }
        else s1.reg
      | none => s1.reg
    ({ s1 with reg := startSpeakingTimer g pd.roomId },
     [Emission.discussionStarted pd.roomId topic pd.captured.head? cfg.speakingTime])

/-- One firing of the interval created by startSpeakingTimer: decrement the
captured room object's timeRemaining, emit timer-update, and advance the speaker
when the time is up.  A cleared handle no longer fires.  A live handle whose
captured object is no longer the registered room (possible only for an orphaned
interval) mutates a dead object; those invisible writes are not modelled. -/
def timerFire (g : Reg) (h : Nat) : Reg × List Emission :=
  match g.timers.find? (fun t => t.handle = h) with
  | none => (g, [])
  | some t =>
    match findRoom g t.roomId with
    | none => (g, [])
    | some room =>
      if room.gen ≠ t.gen then (g, [])
      else
        let d := { room.discussion with timeRemaining := room.discussion.timeRemaining - 1 }
        let g1 := setRoom g t.roomId { room with discussion := d }
        if d.timeRemaining ≤ 0 then
          let ge := advanceToNextSpeaker g1 t.roomId
          (ge.1, Emission.timerUpdate t.roomId d.timeRemaining :: ge.2)
        else (g1, [Emission.timerUpdate t.roomId d.timeRemaining])

/-! ### socketHandlers.js: the per-event handlers -/

/-- The handshake auth payload captured at connect. -/
structure Auth where
  userId : Option String
  name : String
  campus : String
  location : String
  anonymousName : String
deriving Repr, DecidableEq

/-- The optional user-data object a client may pass with join-room. -/
structure ClientUser where
  userId : String
  name : String
  campus : String
  location : String
  anonymousName : String
  role : Option String
deriving Repr, DecidableEq

/-- The role-change request payload. -/
structure RoleChangeData where
  userId : String
  newRole : String
  roomId : Option String
deriving Repr, DecidableEq

def findSocket (s : ServerState) (sockId : String) : Option SocketSt :=
  s.sockets.find? (fun k => k.sockId = sockId)

def setSocket (s : ServerState) (k : SocketSt) : ServerState :=
  { s with sockets := s.sockets.map (fun k0 => if k0.sockId = k.sockId then k else k0) }

/-- connection handler: capture userData from the handshake
(id falls back to the socket id when no userId was supplied). -/
def onConnect (s : ServerState) (sockId : String) (auth : Auth) : ServerState :=
  if (findSocket s sockId).isSome then s
  else
    { s with sockets := s.sockets ++
      [{ sockId := sockId,
         userData :=
           { id := auth.userId.getD sockId, socketId := sockId, name := auth.name,
             campus := auth.campus, location := auth.location,
             anonymousName := auth.anonymousName, role := none,
             isReady := false, joinedAt := 0 },
         currentRoom := none, joinedRooms := [] }] }

/-- The effectiveUserData computed by the join-room handler: the client payload
when it carries a truthy userId, otherwise the handshake userData; either way
the role defaults to listener. -/
def effectiveUser (k : SocketSt) (client : Option ClientUser) : UserData :=
  match client with
  | some c =>
    if c.userId ≠ "" then
      { id := c.userId, socketId := k.sockId, name := c.name, campus := c.campus,
        location := c.location, anonymousName := c.anonymousName,
        role := some (c.role.getD "listener"), isReady := false, joinedAt := 0 }
    else { k.userData with role := some (k.userData.role.getD "listener") }
  | none => { k.userData with role := some (k.userData.role.getD "listener") }

/-- join-room handler: default the room id to general, leave (and be removed
from) every previously joined room, join the new room, add to the roster,
refresh the roster (which re-creates the room if it was destroyed), broadcast,
then evaluate the discussion-start guard. -/
def onJoinRoom (cfg : Config) (s : ServerState) (sockId : String)
    (roomIdArg : Option String) (client : Option ClientUser) : ServerState :=
  match findSocket s sockId with
  | none => s
  | some k =>
    let roomId := roomIdArg.getD "general"
    let eff := effectiveUser k client
    let g := k.joinedRooms.foldl (fun g r => removeUserFromRoom g r eff.id false) s.reg
    let g1 := addUserToRoom g roomId eff
    let g2 := (getRoomParticipants g1 roomId).1
    let s1 := setSocket { s with reg := g2 }
      { k with joinedRooms := [roomId], currentRoom := some roomId }
    checkAndStartDiscussionBegin cfg s1 roomId

/-- user-ready handler: requires a current room; marks the handshake userData
ready, updates the roster entry keyed by the handshake id, broadcasts, then
evaluates the discussion-start guard. -/
def onUserReady (cfg : Config) (s : ServerState) (sockId : String) : ServerState :=
  match findSocket s sockId with
  | none => s
  | some k =>
    match k.currentRoom with
    | none => s
    | some roomId =>
      let k1 := { k with userData := { k.userData with isReady := true } }
      let g := updateUser s.reg roomId k.userData.id true
      let g1 := (getRoomParticipants g roomId).1
      let s1 := setSocket { s with reg := g1 } k1
      checkAndStartDiscussionBegin cfg s1 roomId

/-- leave-room handler: requires a current room; leaves the socket.io room,
removes the roster entry keyed by the handshake id, refreshes the roster
(re-creating the room if the removal emptied and destroyed it), broadcasts, and
clears currentRoom.  No discussion-continuation check runs on this path. -/
def onLeaveRoom (s : ServerState) (sockId : String) : ServerState :=
  match findSocket s sockId with
  | none => s
  | some k =>
    match k.currentRoom with
    | none => s
    | some roomId =>
      let g := removeUserFromRoom s.reg roomId k.userData.id false
      let g1 := (getRoomParticipants g roomId).1
      setSocket { s with reg := g1 }
        { k with joinedRooms := k.joinedRooms.filter (fun r => r ≠ roomId),
                 currentRoom := none }

/-- next-speaker handler: requires a current room with an active discussion,
then runs the shared turn-advance algorithm. -/
def onNextSpeaker (s : ServerState) (sockId : String) : ServerState × List Emission :=
  match findSocket s sockId with
  | none => (s, [])
  | some k =>
    match k.currentRoom with
    | none => (s, [])
    | some roomId =>
      let gr := getRoom s.reg roomId
      if ¬gr.2.discussion.active then ({ s with reg := gr.1 }, [])
      else
        let ge := advanceToNextSpeaker gr.1 roomId
        ({ s with reg := ge.1 }, ge.2)

/-- The reply the role-change handler sends back to the requesting socket. -/
inductive RoleReply where
  | errorReply (message : String)
  | successReply (newRole : String)
deriving Repr, DecidableEq

/-- Result of the role-change handler: the new state, the reply to the sender
(`none` only for an unknown transport, which cannot occur for a real event),
and whether role-changed was broadcast to the room. -/
structure RoleChangeOutcome where
  state : ServerState
  reply : Option RoleReply
  broadcastRoleChanged : Bool
deriving Repr, DecidableEq

/-- JS `a || b` on the optional room id: an empty string is falsy. -/
def jsOrRoom (a b : Option String) : Option String :=
  match a with
  | some x => if x = "" then b else some x
  | none => b

/-- role-change handler.  targetRoomId = data.roomId || socket.currentRoom; the
capacity test runs only for speaker requests (short-circuit &&) and its room
lookup creates the room on a miss, as does changeUserRole's. -/
def onRoleChange (s : ServerState) (sockId : String) (data : RoleChangeData) :
    RoleChangeOutcome :=
  match findSocket s sockId with
  | none => ⟨s, none, false⟩
  | some k =>
    match jsOrRoom data.roomId k.currentRoom with
    | none => ⟨s, some (RoleReply.errorReply "Not in a room"), false⟩
    | some targetRoomId =>
      if ¬(data.newRole = "speaker" ∨ data.newRole = "listener") then
        ⟨s, some (RoleReply.errorReply "Invalid role"), false⟩
      else
        let proceed : Reg → RoleChangeOutcome := fun g =>
          let gb := changeUserRole g targetRoomId data.userId data.newRole
          if gb.2 then
            ⟨{ s with reg := gb.1 }, some (RoleReply.successReply data.newRole), true⟩
          else
            ⟨{ s with reg := gb.1 }, some (RoleReply.errorReply "Failed to change role"), false⟩
        if data.newRole = "speaker" then
          let gc := canBecomeSpeaker s.reg targetRoomId 6
          if ¬gc.2 then
            ⟨{ s with reg := gc.1 }, some (RoleReply.errorReply "Speaker limit reached"), false⟩
          else proceed gc.1
        else proceed s.reg

/-- disconnect handler: for the socket's current room, remove the roster entry
keyed by the handshake id, refresh the roster (re-creating a destroyed room),
broadcast, and re-evaluate discussion continuation; finally the socket is gone.
(The handler is registered twice — the broadcast-test wrapper re-invokes it —
but the second, idempotent run changes nothing the claims observe.) -/
def onDisconnect (cfg : Config) (s : ServerState) (sockId : String) : ServerState :=
  match findSocket s sockId with
  | none => s
  | some k =>
    let s1 :=
      match k.currentRoom with
      | none => s
      | some roomId =>
        let g := removeUserFromRoom s.reg roomId k.userData.id false
        let g1 := (getRoomParticipants g roomId).1
        let g2 := (checkDiscussionContinuation cfg g1 roomId).1
        { s with reg := g2 }
    { s1 with sockets := s1.sockets.filter (fun k0 => k0.sockId ≠ sockId) }

/-! ### The serialized event queue -/

/-- The inbound events of the modelled core, plus the two asynchronous
completions (topic resolution, interval firing). -/
inductive Event where
  | connect (sockId : String) (auth : Auth)
  | joinRoom (sockId : String) (roomIdArg : Option String) (client : Option ClientUser)
  | userReady (sockId : String)
  | leaveRoom (sockId : String)
  | nextSpeaker (sockId : String)
  | roleChange (sockId : String) (data : RoleChangeData)
  | disconnect (sockId : String)
  | topicResolved (i : Nat) (topic : String)
  | timerFire (handle : Nat)
deriving Repr, DecidableEq

/-- One step of the serialized event queue. -/
def step (cfg : Config) (s : ServerState) : Event → ServerState
  | Event.connect id auth => onConnect s id auth
  | Event.joinRoom id r c => onJoinRoom cfg s id r c
  | Event.userReady id => onUserReady cfg s id
  | Event.leaveRoom id => onLeaveRoom s id
  | Event.nextSpeaker id => (onNextSpeaker s id).1
  | Event.roleChange id d => (onRoleChange s id d).state
  | Event.disconnect id => onDisconnect cfg s id
  | Event.topicResolved i t => (resolveTopic cfg s i t).1
  | Event.timerFire h => ({ s with reg := (timerFire s.reg h).1 } : ServerState)

/-- The freshly started server: no rooms, no timers, no sockets, no pendings. -/
def initState : ServerState := ⟨⟨[], [], 0, 0⟩, [], []⟩

/-- Run a sequence of events from the fresh server. -/
def run (cfg : Config) (es : List Event) : ServerState := es.foldl (step cfg) initState

/-! ### The WebRTC signaling relay -/

/-- The socket.io delivery set of io.to(name).emit(...): every connected socket
that is a member of the room named `name`.  Every socket is automatically a
member of the room named by its own socket id, besides the rooms it joined. -/
def roomMembers (s : ServerState) (name : String) : List String :=
  (s.sockets.filter (fun k => k.sockId = name ∨ name ∈ k.joinedRooms)).map SocketSt.sockId

/-- One delivered signaling payload: the receiving socket and the fromSocketId
tag attached by the relay. -/
structure Delivery where
  toSock : String
  fromSocketId : String
deriving Repr, DecidableEq

/-- The deliveries of one signaling event (webrtc-offer / webrtc-answer /
webrtc-ice-candidate).  Two handlers are registered per socket for each of
these event names — the main relay and the broadcast-test relay — and both
execute: each forwards the payload to io.to(targetSocketId) tagged with the
sender's socket id.  The main handler returns on a falsy targetSocketId; the
broadcast-test handler forwards unconditionally (io.to of an undefined room
name delivers to nobody). -/
def relayDeliveries (s : ServerState) (senderId : String) (target : Option String) :
    List Delivery :=
  let mainH : List Delivery :=
    match target with
    | none => []
    | some t => if t = "" then [] else (roomMembers s t).map (fun m => ⟨m, senderId⟩)
  let testH : List Delivery :=
    match target with
    | none => []
    | some t => (roomMembers s t).map (fun m => ⟨m, senderId⟩)
  mainH ++ testH

/-! ### Invariants -/

/-- The live interval handles whose callback drives the given room. -/
def roomTimers (g : Reg) (k : String) : List TimerRec :=
  g.timers.filter (fun t => t.roomId = k)

/-- The timer records a room's timer slot accounts for (none, or exactly one). -/
def slotRecs (kv : String × Room) : List TimerRec :=
  match kv.2.discussion.timer with
  | some h => [⟨h, kv.1, kv.2.gen⟩]
  | none => []

/-- Registry health: room keys are unique; live handles are unique and below the
allocation counter; every stored timer slot is a live interval on that room
object; every live interval is the stored slot of its (present) room object; an
inactive discussion holds no timer. -/
def TReg (g : Reg) : Prop :=
  (g.rooms.map Prod.fst).Nodup ∧
  (g.timers.map TimerRec.handle).Nodup ∧
  (∀ t ∈ g.timers, t.handle < g.nextHandle) ∧
  (∀ kv ∈ g.rooms, ∀ t ∈ slotRecs kv, t ∈ g.timers) ∧
  (∀ t ∈ g.timers, ∃ kv ∈ g.rooms,
    kv.1 = t.roomId ∧ kv.2.discussion.timer = some t.handle ∧ kv.2.gen = t.gen) ∧
  (∀ kv ∈ g.rooms, kv.2.discussion.active = false → kv.2.discussion.timer = none)

/-- Roster health: no room holds two entries with the same identity. -/
def rosterIdsNodup (s : ServerState) : Prop :=
  ∀ kv ∈ s.reg.rooms, (kv.2.participants.map Participant.id).Nodup

/-- Whether resolving pending start `i` now would be safe: the continuation is
about to overwrite the captured room object's discussion, which is only
innocuous if that object is gone or not currently active (an active one would
have its running interval orphaned). -/
def safeResolveB (s : ServerState) (i : Nat) : Bool :=
  match s.pending.get? i with
  | none => true
  | some pd =>
    match findRoom s.reg pd.roomId with
    | some r => !(r.gen = pd.gen && r.discussion.active)
    | none => true

/-- A trace is start-serialized when every topic resolution runs while its
captured room is not active — in particular whenever discussion-start
evaluations never overlap, e.g. when the topic source answers before the next
event (the local-fallback behaviour). -/
def serialStartsB (cfg : Config) : ServerState → List Event → Bool
  | _, [] => true
  | s, e :: es =>
    (match e with
     | Event.topicResolved i _ => safeResolveB s i
     | _ => true) && serialStartsB cfg (step cfg s e) es

/-! ### Concrete scenarios used by the claim theorems, their witnesses and
counterexamples -/

/-- Default configuration: MIN_PARTICIPANTS unset (1), speaking time 60. -/
def cfgDefault : Config := ⟨1, 60⟩

/-- Configuration with MIN_PARTICIPANTS=2. -/
def cfgMin2 : Config := ⟨2, 60⟩

/-- A handshake auth payload for identity `u`. -/
def authOf (u : String) : Auth := ⟨some u, u, "", "", u⟩

/-- Three users join room r, one readies (min 1), the start resolves, two
explicit advances put the speaker index at 2, then the third user leaves:
the roster shrinks to 2 while the index stays 2. -/
def traceStaleIndex : List Event :=
  [Event.connect "s1" (authOf "a"), Event.connect "s2" (authOf "b"),
   Event.connect "s3" (authOf "c"),
   Event.joinRoom "s1" (some "r") none, Event.joinRoom "s2" (some "r") none,
   Event.joinRoom "s3" (some "r") none,
   Event.userReady "s1", Event.topicResolved 0 "t",
   Event.nextSpeaker "s1", Event.nextSpeaker "s1",
   Event.leaveRoom "s3"]

/-- With MIN_PARTICIPANTS=2: both users join and ready, the discussion starts,
then one leaves via the explicit leave-room path. -/
def traceLeaveBelowMin : List Event :=
  [Event.connect "s1" (authOf "a"), Event.connect "s2" (authOf "b"),
   Event.joinRoom "s1" (some "r") none, Event.joinRoom "s2" (some "r") none,
   Event.userReady "s1", Event.userReady "s2", Event.topicResolved 0 "t",
   Event.leaveRoom "s2"]

/-- Two discussion-start evaluations pass the guard before either topic fetch
resolves (the first user readies, then a second user joins); both resolutions
then run. -/
def traceDoubleStart : List Event :=
  [Event.connect "s1" (authOf "a"), Event.connect "s2" (authOf "b"),
   Event.joinRoom "s1" (some "r") none, Event.userReady "s1",
   Event.joinRoom "s2" (some "r") none,
   Event.topicResolved 0 "t1", Event.topicResolved 0 "t2"]

/-- A start-serialized trace reaching an active two-user discussion in room r. -/
def traceActivePair : List Event :=
  [Event.connect "s1" (authOf "a"), Event.connect "s2" (authOf "b"),
   Event.joinRoom "s1" (some "r") none, Event.joinRoom "s2" (some "r") none,
   Event.userReady "s1", Event.topicResolved 0 "t"]

/-- Roster input data: identity a on socket s1. -/
def udA : UserData := ⟨"a", "s1", "A", "A", "", "", none, false, 0⟩

/-- Roster input data: identity b on socket s2. -/
def udB : UserData := ⟨"b", "s2", "B", "B", "", "", none, false, 0⟩

/-- Identity a reconnecting on a fresh socket s9. -/
def udA2 : UserData := ⟨"a", "s9", "A", "A", "", "", none, false, 0⟩

/-- The empty registry. -/
def regEmpty : Reg := ⟨[], [], 0, 0⟩

/-- A registry whose room r holds the roster [a, b]. -/
def regAB : Reg := addUserToRoom (addUserToRoom regEmpty "r" udA) "r" udB

/-- The room object registered as r in regAB. -/
def roomAB : Room := (getRoom regAB "r").2

/-- The registry reached by traceStaleIndex. -/
def gStale : Reg := (run cfgDefault traceStaleIndex).reg

/-- Room r of gStale (Active, roster length 2, speaker index 2). -/
def roomStale : Room := (getRoom gStale "r").2

/-- Room r after running the turn advance on gStale. -/
def advStale : Room := (getRoom (advanceToNextSpeaker gStale "r").1 "r").2

/-- The server state reached by traceActivePair. -/
def sActive : ServerState := run cfgDefault traceActivePair

/-- Room r of sActive (Active, roster [a, b], speaker index 0). -/
def roomActive : Room := (getRoom sActive.reg "r").2

/-- The connection record of socket s1 in sActive. -/
def sockA : SocketSt := (findSocket sActive "s1").getD ⟨"", udA, none, []⟩

/-- Two sockets both joined to the room named general. -/
def sGeneral : ServerState := run cfgDefault
  [Event.connect "s1" (authOf "a"), Event.connect "s2" (authOf "b"),
   Event.joinRoom "s1" (some "general") none, Event.joinRoom "s2" (some "general") none]

/-- One socket joined to room r (used by the role-change claims). -/
def sRole : ServerState := run cfgDefault
  [Event.connect "s1" (authOf "a"), Event.joinRoom "s1" (some "r") none]

/-- The connection record of socket s1 in sRole. -/
def sockR : SocketSt := (findSocket sRole "s1").getD ⟨"", udA, none, []⟩

/-- Room r of sRole. -/
def roomR : Room := (getRoom sRole.reg "r").2

/-- With MIN_PARTICIPANTS=2: three users join r, two of them ready, and the
start resolves — a subsequent disconnect leaves the roster at the minimum. -/
def traceActiveTrio : List Event :=
  [Event.connect "s1" (authOf "a"), Event.connect "s2" (authOf "b"),
   Event.connect "s3" (authOf "c"),
   Event.joinRoom "s1" (some "r") none, Event.joinRoom "s2" (some "r") none,
   Event.joinRoom "s3" (some "r") none,
   Event.userReady "s1", Event.userReady "s2", Event.topicResolved 0 "t"]

/-- The server state reached by traceActiveTrio under MIN_PARTICIPANTS=2. -/
def sTrio : ServerState := run cfgMin2 traceActiveTrio

/-- The connection record of socket s3 in sTrio. -/
def sockC : SocketSt := (findSocket sTrio "s3").getD ⟨"", udA, none, []⟩

/-- Room r after socket s3 disconnects from sTrio. -/
def roomAfterDisc : Room := (getRoom (onDisconnect cfgMin2 sTrio "s3").reg "r").2

/-! ## Theorems

First a toolbox of registry lemmas, then one theorem per claim (with witnesses
and counterexamples where required). -/

theorem setRoom_key_eq (k : String) (r : Room) (kv : String × Room) :
    (if kv.1 = k then (k, r) else kv).1 = kv.1 := by
  by_cases h : kv.1 = k <;> simp [h]

theorem setRoom_keys (g : Reg) (k : String) (r : Room) :
    (setRoom g k r).rooms.map Prod.fst = g.rooms.map Prod.fst := by
  simp only [setRoom, List.map_map]
  exact List.map_congr_left (fun kv _ => setRoom_key_eq k r kv)

theorem setRoom_timers (g : Reg) (k : String) (r : Room) :
    (setRoom g k r).timers = g.timers := rfl

theorem findRoom_setRoom_self (g : Reg) (k : String) (r : Room) :
    findRoom (setRoom g k r) k = (findRoom g k).map (fun _ => r) := by
  simp only [findRoom, setRoom, List.find?_map]
  have hp : ((fun kv : String × Room => decide (kv.1 = k)) ∘
      fun kv => if kv.1 = k then (k, r) else kv) = fun kv => decide (kv.1 = k) := by
    funext kv
    by_cases h : kv.1 = k <;> simp [h]
  rw [hp]
  cases hf : g.rooms.find? (fun kv => kv.1 = k) with
  | none => rfl
  | some kv0 =>
    have hk : kv0.1 = k := by simpa using List.find?_some hf
    simp [hk]

theorem findRoom_setRoom_ne (g : Reg) (k k' : String) (r : Room) (h : k' ≠ k) :
    findRoom (setRoom g k r) k' = findRoom g k' := by
  simp only [findRoom, setRoom, List.find?_map]
  have hp : ((fun kv : String × Room => decide (kv.1 = k')) ∘
      fun kv => if kv.1 = k then (k, r) else kv) = fun kv => decide (kv.1 = k') := by
    funext kv
    by_cases hkv : kv.1 = k <;> simp [hkv]
  rw [hp]
  cases hf : g.rooms.find? (fun kv => kv.1 = k') with
  | none => rfl
  | some kv0 =>
    have hk : kv0.1 = k' := by simpa using List.find?_some hf
    have : ¬kv0.1 = k := by rw [hk]; exact h
    simp [this]

theorem getRoom_found {g : Reg} {k : String} {r : Room} (h : findRoom g k = some r) :
    getRoom g k = (g, r) := by
  simp [getRoom, h]

theorem getRoom_miss {g : Reg} {k : String} (h : findRoom g k = none) :
    getRoom g k = (withFresh g k, freshRoom k g.nextGen) := by
  simp [getRoom, h]

theorem findRoom_congr {g g' : Reg} (k : String) (h : g.rooms = g'.rooms) :
    findRoom g k = findRoom g' k := by
  simp [findRoom, h]

theorem findRoom_none_iff (g : Reg) (k : String) :
    findRoom g k = none ↔ ∀ kv ∈ g.rooms, kv.1 ≠ k := by
  simp [findRoom, List.find?_eq_none]

theorem findRoom_append_self {g : Reg} {k : String} (r : Room) (h : findRoom g k = none) :
    findRoom { g with rooms := g.rooms ++ [(k, r)] } k = some r := by
  have h' : g.rooms.find? (fun kv => kv.1 = k) = none := by
    simpa [findRoom] using h
  simp [findRoom, List.find?_append, h']

theorem findRoom_append_ne {g : Reg} {k k' : String} (r : Room) (h : k' ≠ k) :
    findRoom { g with rooms := g.rooms ++ [(k, r)] } k' = findRoom g k' := by
  simp only [findRoom, List.find?_append]
  cases hf : g.rooms.find? (fun kv => kv.1 = k') with
  | none => simp [List.find?, h, Ne.symm h]
  | some kv0 => simp

theorem findRoom_withFresh_self {g : Reg} {k : String} (h : findRoom g k = none) :
    findRoom (withFresh g k) k = some (freshRoom k g.nextGen) := by
  rw [@findRoom_congr (withFresh g k) { g with rooms := g.rooms ++ [(k, freshRoom k g.nextGen)] } k rfl]
  exact findRoom_append_self _ h

theorem findRoom_withFresh_ne {g : Reg} {k k' : String} (h : k' ≠ k) :
    findRoom (withFresh g k) k' = findRoom g k' := by
  rw [@findRoom_congr (withFresh g k) { g with rooms := g.rooms ++ [(k, freshRoom k g.nextGen)] } k' rfl]
  exact findRoom_append_ne _ h

theorem map_setEntry_setEntry (l : List (String × Room)) (k : String) (r r' : Room) :
    (l.map (fun kv => if kv.1 = k then (k, r) else kv)).map
        (fun kv => if kv.1 = k then (k, r') else kv)
      = l.map (fun kv => if kv.1 = k then (k, r') else kv) := by
  rw [List.map_map]
  exact List.map_congr_left (fun kv _ => by by_cases h : kv.1 = k <;> simp [h])

theorem setRoom_setRoom (g : Reg) (k : String) (r r' : Room) :
    setRoom (setRoom g k r) k r' = setRoom g k r' := by
  simp only [setRoom]
  congr 1
  exact map_setEntry_setEntry g.rooms k r r'

theorem setRoom_nextHandle (g : Reg) (k : String) (r : Room) :
    (setRoom g k r).nextHandle = g.nextHandle := rfl

theorem setRoom_nextGen (g : Reg) (k : String) (r : Room) :
    (setRoom g k r).nextGen = g.nextGen := rfl

theorem setRoom_timerset_setRoom (g : Reg) (k : String) (rB rC : Room)
    (tm : List TimerRec) (nh : Nat) :
    setRoom { setRoom g k rB with timers := tm, nextHandle := nh } k rC
      = { setRoom g k rC with timers := tm, nextHandle := nh } := by
  simp only [setRoom]
  congr 1
  exact map_setEntry_setEntry g.rooms k rB rC

theorem setRoom_mk_setRoom (g : Reg) (k : String) (rB rC : Room)
    (tm : List TimerRec) (nh ng : Nat) :
    setRoom ⟨(setRoom g k rB).rooms, tm, nh, ng⟩ k rC
      = ⟨(setRoom g k rC).rooms, tm, nh, ng⟩ := by
  simp only [setRoom]
  congr 1
  exact map_setEntry_setEntry g.rooms k rB rC

theorem setRoom_mk_rooms (a : Reg) (k : String) (rC : Room)
    (tm : List TimerRec) (nh ng : Nat) :
    setRoom ⟨a.rooms, tm, nh, ng⟩ k rC = ⟨(setRoom a k rC).rooms, tm, nh, ng⟩ := rfl

theorem mem_setRoom {g : Reg} {k : String} {r : Room} {kv : String × Room} :
    kv ∈ (setRoom g k r).rooms ↔
      (∃ kv0 ∈ g.rooms, kv0.1 = k ∧ kv = (k, r)) ∨ (kv ∈ g.rooms ∧ kv.1 ≠ k) := by
  simp only [setRoom, List.mem_map]
  constructor
  · rintro ⟨kv0, hmem, rfl⟩
    by_cases h : kv0.1 = k
    · exact Or.inl ⟨kv0, hmem, h, by simp [h]⟩
    · exact Or.inr ⟨by simpa [h] using hmem, by simp [h]⟩
  · rintro (⟨kv0, hmem, hk, rfl⟩ | ⟨hmem, hne⟩)
    · exact ⟨kv0, hmem, by simp [hk]⟩
    · exact ⟨kv, hmem, by simp [hne]⟩

theorem setRoom_rooms_filter_ne (g : Reg) (k : String) (r : Room) :
    (setRoom g k r).rooms.filter (fun kv => kv.1 ≠ k)
      = g.rooms.filter (fun kv => kv.1 ≠ k) := by
  simp only [setRoom]
  rw [List.filter_map]
  have hp : ((fun kv : String × Room => decide (kv.1 ≠ k)) ∘
      fun kv => if kv.1 = k then (k, r) else kv) = fun kv => decide (kv.1 ≠ k) := by
    funext kv
    by_cases h : kv.1 = k <;> simp [h]
  rw [hp]
  have hmem : ∀ kv ∈ g.rooms.filter (fun kv => decide (kv.1 ≠ k)),
      (if kv.1 = k then (k, r) else kv) = kv := by
    intro kv hkv
    have hne : ¬kv.1 = k := by simpa using (List.mem_filter.mp hkv).2
    simp [hne]
  rw [List.map_congr_left hmem, List.map_id']


theorem updateFirst_id_map (ps : List Participant) (u : String)
    (f : Participant → Participant) (hf : ∀ p, (f p).id = p.id) :
    (updateFirst ps u f).map Participant.id = ps.map Participant.id := by
  induction ps with
  | nil => rfl
  | cons p rest ih =>
    by_cases h : p.id = u <;> simp [updateFirst, h, ih, hf]

theorem updateFirst_of_forall_ne (ps : List Participant) (u : String)
    (f : Participant → Participant) (h : ∀ p ∈ ps, ¬p.id = u) :
    updateFirst ps u f = ps := by
  induction ps with
  | nil => rfl
  | cons p rest ih =>
    have h0 : ¬p.id = u := h p (List.mem_cons_self p rest)
    simp [updateFirst, h0, ih (fun q hq => h q (List.mem_cons_of_mem p hq))]

theorem updateFirst_spec (ps : List Participant) (u : String)
    (f : Participant → Participant) (h : ps.any (fun p => p.id = u) = true) :
    ∃ i q, ps.get? i = some q ∧ q.id = u ∧ updateFirst ps u f = ps.set i (f q) ∧
      ∀ j pj, j < i → ps.get? j = some pj → ¬pj.id = u := by
  induction ps with
  | nil => simp at h
  | cons p rest ih =>
    by_cases hp : p.id = u
    · exact ⟨0, p, rfl, hp, by simp [updateFirst, hp], fun j pj hj _ => absurd hj (by omega)⟩
    · have h' : rest.any (fun p => p.id = u) = true := by simpa [hp] using h
      obtain ⟨i, q, hq, hqu, hset, hfirst⟩ := ih h'
      refine ⟨i + 1, q, by simpa using hq, hqu, by simp [updateFirst, hp, hset], ?_⟩
      intro j pj hj hg
      cases j with
      | zero =>
        have hpj : p = pj := by simpa using hg
        rw [← hpj]; exact hp
      | succ j' => exact hfirst j' pj (by omega) (by simpa using hg)

theorem removeUser_found_keep {g : Reg} {k u : String} {r : Room} (sc : Bool)
    (h : findRoom g k = some r)
    (hcond : ¬((r.participants.filter (fun p => p.id ≠ u)).isEmpty ∧ sc = false)) :
    removeUserFromRoom g k u sc
      = setRoom g k { r with participants := r.participants.filter (fun p => p.id ≠ u) } := by
  simp only [removeUserFromRoom, getRoom_found h]
  rw [if_neg hcond]

theorem clearTimer_rooms (g : Reg) (x : Option Nat) :
    (clearTimerHandle g x).rooms = g.rooms := by
  cases x <;> rfl

theorem clearTimer_nextHandle (g : Reg) (x : Option Nat) :
    (clearTimerHandle g x).nextHandle = g.nextHandle := by
  cases x <;> rfl

theorem clearTimer_nextGen (g : Reg) (x : Option Nat) :
    (clearTimerHandle g x).nextGen = g.nextGen := by
  cases x <;> rfl

theorem clearTimer_timers_setRoom (g : Reg) (k : String) (r : Room) (x : Option Nat) :
    (clearTimerHandle (setRoom g k r) x).timers = (clearTimerHandle g x).timers := by
  cases x <;> rfl

theorem removeUser_found_cleanup {g : Reg} {k u : String} {r : Room}
    (h : findRoom g k = some r)
    (he : r.participants.filter (fun p => p.id ≠ u) = []) :
    removeUserFromRoom g k u false
      = { rooms := g.rooms.filter (fun kv => kv.1 ≠ k),
          timers := (clearTimerHandle g r.discussion.timer).timers,
          nextHandle := g.nextHandle, nextGen := g.nextGen } := by
  have hempty : (r.participants.filter (fun p => p.id ≠ u)).isEmpty = true := by
    rw [he]; rfl
  have hstep : removeUserFromRoom g k u false
      = cleanupRoom (setRoom g k
          { r with participants := r.participants.filter (fun p => p.id ≠ u) }) k := by
    simp only [removeUserFromRoom, getRoom_found h]
    rw [if_pos ⟨hempty, by trivial⟩]
  have hfind : findRoom (setRoom g k
      { r with participants := r.participants.filter (fun p => p.id ≠ u) }) k
      = some { r with participants := r.participants.filter (fun p => p.id ≠ u) } := by
    rw [findRoom_setRoom_self, h]; rfl
  rw [hstep]
  simp only [cleanupRoom, hfind]
  have ht : ({ r with participants := r.participants.filter (fun p => p.id ≠ u) }
      : Room).discussion.timer = r.discussion.timer := rfl
  rw [ht]
  congr 1
  · rw [clearTimer_rooms, setRoom_rooms_filter_ne]
  · rw [clearTimer_timers_setRoom]
  · rw [clearTimer_nextHandle]; rfl
  · rw [clearTimer_nextGen]; rfl

theorem addUser_found {g : Reg} {k : String} {r : Room} (u : UserData)
    (h : findRoom g k = some r) :
    addUserToRoom g k u = setRoom g k
      { r with participants :=
          r.participants.filter (fun p => p.id ≠ u.id) ++ [mkParticipant u] } := by
  have hkeep := @removeUser_found_keep g k u.id r true h (by simp)
  have hfind2 : findRoom (setRoom g k
      { r with participants := r.participants.filter (fun p => p.id ≠ u.id) }) k
      = some { r with participants := r.participants.filter (fun p => p.id ≠ u.id) } := by
    rw [findRoom_setRoom_self, h]; rfl
  simp only [addUserToRoom, getRoom_found h, hkeep, getRoom_found hfind2, setRoom_setRoom]

theorem addUser_miss {g : Reg} {k : String} (u : UserData) (h : findRoom g k = none) :
    findRoom (addUserToRoom g k u) k
        = some { freshRoom k g.nextGen with participants := [mkParticipant u] } ∧
      (∀ k', k' ≠ k → findRoom (addUserToRoom g k u) k' = findRoom g k') ∧
      (addUserToRoom g k u).timers = g.timers := by
  have hg1 : findRoom (withFresh g k) k = some (freshRoom k g.nextGen) :=
    findRoom_withFresh_self h
  have hadd : addUserToRoom g k u
      = setRoom (withFresh g k) k
          { freshRoom k g.nextGen with participants := [mkParticipant u] } := by
    have hkeep := @removeUser_found_keep (withFresh g k) k u.id (freshRoom k g.nextGen)
      true hg1 (by simp)
    have hfindF : findRoom (setRoom (withFresh g k) k
        { freshRoom k g.nextGen with participants :=
            (freshRoom k g.nextGen).participants.filter (fun p => p.id ≠ u.id) }) k
        = some { freshRoom k g.nextGen with participants :=
            (freshRoom k g.nextGen).participants.filter (fun p => p.id ≠ u.id) } := by
      rw [findRoom_setRoom_self, hg1]; rfl
    simp only [addUserToRoom, getRoom_miss h, hkeep, getRoom_found hfindF, setRoom_setRoom]
    rfl
  refine ⟨?_, ?_, ?_⟩
  · rw [hadd, findRoom_setRoom_self, hg1]; rfl
  · intro k' hk'
    rw [hadd, findRoom_setRoom_ne _ _ _ _ hk', findRoom_withFresh_ne hk']
  · rw [hadd]; rfl

/-! ### Counterexamples -/

/-- Counterexample to claim C1: after the event sequence `traceStaleIndex`
(three users, discussion started, index advanced to 2, third user leaves), room
r is still Active with a roster of length 2 while currentSpeakerIndex is 2 — no
clamping happened on the roster mutation, and getDiscussionState reports no
current speaker for an Active room. -/
theorem claim_C1_counterexample :
    (findRoom (run cfgDefault traceStaleIndex).reg "r").map
        (fun r => (r.discussion.active, r.participants.length,
                   r.discussion.currentSpeakerIndex)) = some (true, 2, 2) ∧
      (getDiscussionState (run cfgDefault traceStaleIndex).reg "r").2.currentSpeaker
        = none := by
  exact ⟨by decide, by decide⟩

/-- Counterexample to claim C3: after `traceDoubleStart` (two discussion-start
guards pass before either topic fetch resolves, then both resolve), two live
countdown intervals exist for room r at once. -/
theorem claim_C3_counterexample :
    (roomTimers (run cfgDefault traceDoubleStart).reg "r").length = 2 := by decide

/-- Counterexample to claim C5: with MIN_PARTICIPANTS=2, after
`traceLeaveBelowMin` (discussion active with two users, one leaves via the
explicit leave-room path) the room has 1 < 2 participants but the discussion is
still Active — the leave-room handler runs no continuation check. -/
theorem claim_C5_counterexample :
    (findRoom (run cfgMin2 traceLeaveBelowMin).reg "r").map
      (fun r => (r.discussion.active, r.participants.length)) = some (true, 1) := by
  decide

/-- Counterexample to claim C6: re-adding identity a (reconnection on socket s9)
to the roster [a, b] yields [b, a] — the entry is moved to the end, not replaced
in place at position 0. -/
theorem claim_C6_counterexample :
    (findRoom regAB "r").map (fun r => r.participants.map Participant.id)
        = some ["a", "b"] ∧
      (findRoom (addUserToRoom regAB "r" udA2) "r").map
        (fun r => r.participants.map (fun p => (p.id, p.socketId)))
        = some [("b", "s2"), ("a", "s9")] := by
  exact ⟨by decide, by decide⟩

/-- Counterexample to claim C7: when the targetSocketId value is the name of a
socket.io room with members ("general", joined by sockets s1 and s2) — a value
that names no currently connected socket — the payload is not dropped: it is
delivered to every member of that room, including a socket other than any named
destination. -/
theorem claim_C7_counterexample :
    (sGeneral.sockets.map SocketSt.sockId = ["s1", "s2"]) ∧
    relayDeliveries sGeneral "s1" (some "general")
      = [⟨"s1", "s1"⟩, ⟨"s2", "s1"⟩, ⟨"s1", "s1"⟩, ⟨"s2", "s1"⟩] := by
  exact ⟨by decide, by decide⟩

/-- Counterexample to claim C8: a role-change request from a socket that is in
room r, asking the valid role listener for a target identity not present in the
room, is answered with an error reply — yet none of the claim's three error
conditions (no current room / invalid role / speaker capacity) holds. -/
theorem claim_C8_counterexample :
    ((findSocket sRole "s1").map SocketSt.currentRoom = some (some "r")) ∧
      ("listener" = "speaker" ∨ "listener" = "listener") ∧
      (canBecomeSpeaker sRole.reg "r" 6).2 = true ∧
      (onRoleChange sRole "s1" ⟨"ghost", "listener", none⟩).reply
        = some (RoleReply.errorReply "Failed to change role") ∧
      (onRoleChange sRole "s1" ⟨"ghost", "listener", none⟩).state = sRole := by
  refine ⟨by decide, Or.inr rfl, by decide, by decide, by decide⟩

/-! ### Claim C6: roster add -/

theorem removeUser_miss {g : Reg} {k u : String} (h : findRoom g k = none) :
    (removeUserFromRoom g k u false).rooms = g.rooms ∧
      (removeUserFromRoom g k u false).timers = g.timers ∧
      (removeUserFromRoom g k u false).nextHandle = g.nextHandle := by
  have hg1 : findRoom (withFresh g k) k = some (freshRoom k g.nextGen) :=
    findRoom_withFresh_self h
  have hstep : removeUserFromRoom g k u false
      = cleanupRoom (setRoom (withFresh g k) k
          { freshRoom k g.nextGen with participants :=
              (freshRoom k g.nextGen).participants.filter (fun p => p.id ≠ u) }) k := by
    simp only [removeUserFromRoom, getRoom_miss h]
    rw [if_pos ⟨by rfl, by trivial⟩]
  have hfindF : findRoom (setRoom (withFresh g k) k
      { freshRoom k g.nextGen with participants :=
          (freshRoom k g.nextGen).participants.filter (fun p => p.id ≠ u) }) k
      = some { freshRoom k g.nextGen with participants :=
          (freshRoom k g.nextGen).participants.filter (fun p => p.id ≠ u) } := by
    rw [findRoom_setRoom_self, hg1]; rfl
  have hkeys : ∀ kv ∈ g.rooms, kv.1 ≠ k := (findRoom_none_iff g k).mp h
  rw [hstep]
  simp only [cleanupRoom, hfindF]
  refine ⟨?_, ?_, ?_⟩
  · show (clearTimerHandle _ _).rooms.filter _ = _
    rw [clearTimer_rooms, setRoom_rooms_filter_ne]
    show (withFresh g k).rooms.filter (fun kv => kv.1 ≠ k) = g.rooms
    simp only [withFresh, List.filter_append]
    rw [List.filter_eq_self.mpr (fun kv hkv => by simpa using hkeys kv hkv)]
    simp
  · show (clearTimerHandle _ _).timers = _
    rfl
  · show (clearTimerHandle _ _).nextHandle = _
    rfl

/-- Claim C6 (amended): roster add is idempotent by identity but does not
replace in place: when the identity is already present its old entry is removed
and the (re)joining participant is appended at the end of the roster, with
every other participant's relative order undisturbed (the filtered remainder is
a sublist of the old roster); a new identity is appended at the end; the room's
discussion state and all other rooms are untouched. -/
theorem claim_C6_roster_add (g : Reg) (k : String) (u : UserData) :
    (∀ r, findRoom g k = some r →
      ∃ r', findRoom (addUserToRoom g k u) k = some r' ∧
        r'.participants
          = r.participants.filter (fun p => p.id ≠ u.id) ++ [mkParticipant u] ∧
        r'.discussion = r.discussion ∧
        List.Sublist (r.participants.filter (fun p => p.id ≠ u.id)) r.participants ∧
        ((∀ p ∈ r.participants, ¬p.id = u.id) →
          r'.participants = r.participants ++ [mkParticipant u])) ∧
    (findRoom g k = none →
      ∃ r', findRoom (addUserToRoom g k u) k = some r' ∧
        r'.participants = [mkParticipant u]) ∧
    (∀ k', k' ≠ k → findRoom (addUserToRoom g k u) k' = findRoom g k') := by
  refine ⟨?_, ?_, ?_⟩
  · intro r hr
    have hadd := addUser_found u hr
    refine ⟨{ r with participants :=
        r.participants.filter (fun p => p.id ≠ u.id) ++ [mkParticipant u] },
      ?_, rfl, rfl, List.filter_sublist _, ?_⟩
    · rw [hadd, findRoom_setRoom_self, hr]
      rfl
    intro hall
    show r.participants.filter (fun p => p.id ≠ u.id) ++ [mkParticipant u] = _
    rw [List.filter_eq_self.mpr (fun p hp => by simpa using hall p hp)]
  · intro hnone
    exact ⟨_, (addUser_miss u hnone).1, rfl⟩
  · intro k' hk'
    cases hr : findRoom g k with
    | some r => rw [addUser_found u hr, findRoom_setRoom_ne _ _ _ _ hk']
    | none => exact (addUser_miss u hr).2.1 k' hk'

/-- Witness for claim C6: re-adding identity a over the roster [a, b]. -/
theorem claim_C6_witness :
    findRoom regAB "r" = some roomAB ∧
      (getRoom (addUserToRoom regAB "r" udA2) "r").2.participants
        = roomAB.participants.filter (fun p => p.id ≠ udA2.id) ++ [mkParticipant udA2] := by
  have h : findRoom regAB "r" = some roomAB := by decide
  obtain ⟨r', h1, h2, _⟩ := (claim_C6_roster_add regAB "r" udA2).1 roomAB h
  have hr' : (getRoom (addUserToRoom regAB "r" udA2) "r").2 = r' :=
    congrArg Prod.snd (getRoom_found h1)
  exact ⟨h, by rw [hr']; exact h2⟩

/-! ### Claim C9: lookup is total and creates on miss -/

/-- Claim C9: getRoom on an unregistered roomId creates and returns a fresh
room with an empty roster and an inactive discussion (active=false, round=1,
currentSpeakerIndex=0, speakingTime=60, timeRemaining=0), and registers it;
roster operations on an unknown roomId therefore operate on the implicitly
created room: removal creates and then immediately destroys it (net: rooms and
timers unchanged), an update leaves the created room registered, the speaker
capacity check answers for the fresh room, and the participants accessor
returns its empty roster. -/
theorem claim_C9_lookup_creates (g : Reg) (k u : String) (h : findRoom g k = none) :
    (getRoom g k).2.participants = [] ∧
    (getRoom g k).2.discussion.active = false ∧
    (getRoom g k).2.discussion.round = 1 ∧
    (getRoom g k).2.discussion.currentSpeakerIndex = 0 ∧
    (getRoom g k).2.discussion.speakingTime = 60 ∧
    (getRoom g k).2.discussion.timeRemaining = 0 ∧
    findRoom (getRoom g k).1 k = some (getRoom g k).2 ∧
    (removeUserFromRoom g k u false).rooms = g.rooms ∧
    (removeUserFromRoom g k u false).timers = g.timers ∧
    findRoom (updateUser g k u true) k = some (freshRoom k g.nextGen) ∧
    (canBecomeSpeaker g k 6).2 = true ∧
    (getRoomParticipants g k).2 = [] := by
  have hg1 : findRoom (withFresh g k) k = some (freshRoom k g.nextGen) :=
    findRoom_withFresh_self h
  refine ⟨by rw [getRoom_miss h]; rfl, by rw [getRoom_miss h]; rfl,
    by rw [getRoom_miss h]; rfl, by rw [getRoom_miss h]; rfl,
    by rw [getRoom_miss h]; rfl, by rw [getRoom_miss h]; rfl,
    ?_, (removeUser_miss h).1, (removeUser_miss h).2.1, ?_, ?_, ?_⟩
  · rw [getRoom_miss h]
    exact hg1
  · simp only [updateUser, getRoom_miss h]
    rw [findRoom_setRoom_self, hg1]
    rfl
  · simp only [canBecomeSpeaker, getRoom_miss h]
    rfl
  · simp only [getRoomParticipants, getRoom_miss h]
    rfl

/-- Witness for claim C9: the unknown room id nowhere against regAB. -/
theorem claim_C9_witness :
    (getRoom regAB "nowhere").2.participants = [] ∧
      (removeUserFromRoom regAB "nowhere" "u" false).rooms = regAB.rooms := by
  have h : findRoom regAB "nowhere" = none := by decide
  obtain ⟨h1, _, _, _, _, _, _, h8, _⟩ := claim_C9_lookup_creates regAB "nowhere" "u" h
  exact ⟨h1, h8⟩

/-! ### Claim C10: changeUserRole -/

/-- Claim C10: for a registered room, changeUserRole returns false and leaves
the registry untouched exactly when the requested role is neither speaker nor
listener or no participant with the given id is present; on success the only
mutation is the role field of the first participant with that id (the roster is
the old one with that single entry's role replaced), and every other room is
unchanged. -/
theorem claim_C10_changeUserRole {g : Reg} {k : String} (u nr : String) {r : Room}
    (h : findRoom g k = some r) :
    (¬(nr = "speaker" ∨ nr = "listener") → changeUserRole g k u nr = (g, false)) ∧
    ((nr = "speaker" ∨ nr = "listener") → (∀ p ∈ r.participants, ¬p.id = u) →
      changeUserRole g k u nr = (g, false)) ∧
    ((nr = "speaker" ∨ nr = "listener") →
      r.participants.any (fun p => p.id = u) = true →
      (changeUserRole g k u nr).2 = true ∧
      ∃ i q, r.participants.get? i = some q ∧ q.id = u ∧
        (∀ j pj, j < i → r.participants.get? j = some pj → ¬pj.id = u) ∧
        findRoom (changeUserRole g k u nr).1 k
          = some { r with participants := r.participants.set i { q with role := nr } } ∧
        (∀ k', k' ≠ k → findRoom (changeUserRole g k u nr).1 k' = findRoom g k')) := by
  refine ⟨?_, ?_, ?_⟩
  · intro hbad
    simp [changeUserRole, hbad]
  · intro hok hnone
    have hany : r.participants.any (fun p => p.id = u) = false :=
      List.any_eq_false.mpr (fun p hp => by simpa using hnone p hp)
    simp [changeUserRole, hok, getRoom_found h, hany]
  · intro hok hany
    obtain ⟨i, q, hq, hqu, hset, hfirst⟩ :=
      updateFirst_spec r.participants u (fun p => { p with role := nr }) hany
    have hchange : changeUserRole g k u nr
        = (setRoom g k { r with participants := r.participants.set i { q with role := nr } },
           true) := by
      simp [changeUserRole, hok, getRoom_found h, hany, hset]
    refine ⟨by rw [hchange], i, q, hq, hqu, hfirst, ?_, ?_⟩
    · rw [hchange]
      show findRoom (setRoom g k _) k = _
      rw [findRoom_setRoom_self, h]
      rfl
    · intro k' hk'
      rw [hchange]
      exact findRoom_setRoom_ne _ _ _ _ hk'

/-- Witness for claim C10: an invalid role, an absent target and a successful
promotion against the roster [a, b]. -/
theorem claim_C10_witness :
    changeUserRole regAB "r" "a" "admin" = (regAB, false) ∧
    changeUserRole regAB "r" "ghost" "listener" = (regAB, false) ∧
    (changeUserRole regAB "r" "a" "speaker").2 = true := by
  have h : findRoom regAB "r" = some roomAB := by decide
  refine ⟨(claim_C10_changeUserRole "a" "admin" h).1 (by decide),
    (claim_C10_changeUserRole "ghost" "listener" h).2.1 (Or.inr rfl) (by decide),
    ((claim_C10_changeUserRole "a" "speaker" h).2.2 (Or.inl rfl) (by decide)).1⟩

/-! ### The turn-advance algorithm, characterized -/

theorem findRoom_clearTimer (g : Reg) (x : Option Nat) (k : String) :
    findRoom (clearTimerHandle g x) k = findRoom g k :=
  @findRoom_congr (clearTimerHandle g x) g k (clearTimer_rooms g x)

theorem findRoom_timersmod (a : Reg) (k : String) (tm : List TimerRec) (nh ng : Nat) :
    findRoom ⟨a.rooms, tm, nh, ng⟩ k = findRoom a k := rfl

theorem clearTimer_none (g : Reg) : clearTimerHandle g none = g := rfl

theorem advance_end_spec {g : Reg} {k : String} {r : Room} (h : findRoom g k = some r)
    (ha : r.discussion.active = true) (hn : 0 < r.participants.length)
    (hidx : (r.discussion.currentSpeakerIndex + 1) % r.participants.length = 0)
    (hrnd : 3 < r.discussion.round + 1) :
    advanceToNextSpeaker g k
      = (setRoom (clearTimerHandle g r.discussion.timer) k { r with discussion := { r.discussion with timer := none, currentSpeakerIndex := 0, round := r.discussion.round + 1, active := false, endedAt := some 0 } },
         [Emission.discussionEnded k]) := by
  have hn0 : ¬r.participants.length = 0 := Nat.pos_iff_ne_zero.mp hn
  simp [advanceToNextSpeaker, endDiscussion, startSpeakingTimer, getRoom, clearTimer_none,
    h, ha, hn0, hidx, hrnd, findRoom_setRoom_self, findRoom_clearTimer, setRoom_setRoom]

theorem advance_cont_spec {g : Reg} {k : String} {r : Room} (h : findRoom g k = some r)
    (ha : r.discussion.active = true) (hn : 0 < r.participants.length)
    (hcont : ¬((r.discussion.currentSpeakerIndex + 1) % r.participants.length = 0 ∧ 3 < (if (r.discussion.currentSpeakerIndex + 1) % r.participants.length = 0 then r.discussion.round + 1 else r.discussion.round))) :
    advanceToNextSpeaker g k
      = ({ setRoom (clearTimerHandle g r.discussion.timer) k { r with discussion := { r.discussion with timer := some (clearTimerHandle g r.discussion.timer).nextHandle, currentSpeakerIndex := (r.discussion.currentSpeakerIndex + 1) % r.participants.length, round := (if (r.discussion.currentSpeakerIndex + 1) % r.participants.length = 0 then r.discussion.round + 1 else r.discussion.round), timeRemaining := r.discussion.speakingTime } } with timers := (clearTimerHandle g r.discussion.timer).timers ++ [⟨(clearTimerHandle g r.discussion.timer).nextHandle, k, r.gen⟩], nextHandle := (clearTimerHandle g r.discussion.timer).nextHandle + 1 },
         [Emission.speakerChanged k (r.participants.get? ((r.discussion.currentSpeakerIndex + 1) % r.participants.length)) r.discussion.speakingTime (if (r.discussion.currentSpeakerIndex + 1) % r.participants.length = 0 then r.discussion.round + 1 else r.discussion.round)]) := by
  have hn0 : ¬r.participants.length = 0 := Nat.pos_iff_ne_zero.mp hn
  simp only [advanceToNextSpeaker, getRoom_found h, ha, Bool.not_true, not_false_eq_true,
    not_true_eq_false, if_false, if_neg hn0, if_neg hcont]
  simp [startSpeakingTimer, getRoom, clearTimer_none, h, ha,
    findRoom_setRoom_self, findRoom_clearTimer, setRoom_setRoom, setRoom_timers,
    setRoom_nextHandle, setRoom_nextGen, setRoom_timerset_setRoom, setRoom_mk_setRoom]

theorem findRoom_filterkey_self (g : Reg) (k : String) (tm : List TimerRec) (nh ng : Nat) :
    findRoom ⟨g.rooms.filter (fun kv => kv.1 ≠ k), tm, nh, ng⟩ k = none := by
  simp only [findRoom, Option.map_eq_none']
  rw [List.find?_eq_none]
  intro kv hkv
  have := (List.mem_filter.mp hkv).2
  simpa using this

theorem findRoom_filterkey_ne {g : Reg} {k k' : String} (tm : List TimerRec) (nh ng : Nat)
    (h : k' ≠ k) :
    findRoom ⟨g.rooms.filter (fun kv => kv.1 ≠ k), tm, nh, ng⟩ k' = findRoom g k' := by
  simp only [findRoom]
  congr 1
  induction g.rooms with
  | nil => rfl
  | cons a l ih =>
    by_cases ha : a.1 = k
    · rw [List.filter_cons_of_neg (by simpa using ha), ih]
      have hne : ¬a.1 = k' := by rw [ha]; exact fun hek => h hek.symm
      rw [List.find?_cons_of_neg _ (by simpa using hne)]
    · rw [List.filter_cons_of_pos (by simpa using ha)]
      by_cases ha' : a.1 = k'
      · rw [List.find?_cons_of_pos _ (by simpa using ha'),
          List.find?_cons_of_pos _ (by simpa using ha')]
      · rw [List.find?_cons_of_neg _ (by simpa using ha'),
          List.find?_cons_of_neg _ (by simpa using ha'), ih]

theorem find?_eq_of_mem_nodup {l : List (String × Room)} (hnd : (l.map Prod.fst).Nodup)
    {kv : String × Room} (hm : kv ∈ l) :
    l.find? (fun kv0 => kv0.1 = kv.1) = some kv := by
  induction l with
  | nil => cases hm
  | cons a t ih =>
    rcases List.mem_cons.mp hm with rfl | hmem
    · exact List.find?_cons_of_pos _ (by simp)
    · have h1 : a.1 ∉ t.map Prod.fst := (List.nodup_cons.mp (by simpa using hnd)).1
      have hne : ¬a.1 = kv.1 := fun he => h1 (he ▸ List.mem_map_of_mem Prod.fst hmem)
      rw [List.find?_cons_of_neg _ (by simpa using hne)]
      exact ih (List.nodup_cons.mp (by simpa using hnd)).2 hmem

theorem findRoom_eq_of_mem {g : Reg} (hnd : (g.rooms.map Prod.fst).Nodup)
    {kv : String × Room} (hm : kv ∈ g.rooms) : findRoom g kv.1 = some kv.2 := by
  simp only [findRoom]
  rw [find?_eq_of_mem_nodup hnd hm]
  rfl

/-- The next-speaker handler on an active current room is exactly the shared
turn-advance algorithm. -/
theorem onNextSpeaker_advances {s : ServerState} {sockId : String} {kk : SocketSt}
    {k : String} {r : Room} (hk : findSocket s sockId = some kk)
    (hc : kk.currentRoom = some k) (hf : findRoom s.reg k = some r)
    (ha : r.discussion.active = true) :
    onNextSpeaker s sockId
      = ({ s with reg := (advanceToNextSpeaker s.reg k).1 },
         (advanceToNextSpeaker s.reg k).2) := by
  simp [onNextSpeaker, hk, hc, getRoom_found hf, ha]

/-- A timer firing that exhausts the countdown is exactly the decrement followed
by the shared turn-advance algorithm. -/
theorem timerFire_advances {g : Reg} {h0 : Nat} {t : TimerRec} {room : Room}
    (hft : g.timers.find? (fun t0 => t0.handle = h0) = some t)
    (hroom : findRoom g t.roomId = some room) (hgen : room.gen = t.gen)
    (hexp : room.discussion.timeRemaining - 1 ≤ 0) :
    timerFire g h0
      = ((advanceToNextSpeaker (setRoom g t.roomId { room with discussion := { room.discussion with timeRemaining := room.discussion.timeRemaining - 1 } }) t.roomId).1,
         Emission.timerUpdate t.roomId (room.discussion.timeRemaining - 1)
           :: (advanceToNextSpeaker (setRoom g t.roomId { room with discussion := { room.discussion with timeRemaining := room.discussion.timeRemaining - 1 } }) t.roomId).2) := by
  simp [timerFire, hft, hroom, hgen, hexp]

/-! ### Claim C1: speaker-index re-validation -/

/-- Claim C1 (amended): roster mutations perform no index re-anchoring —
removeUserFromRoom leaves every surviving room's discussion record (hence its
currentSpeakerIndex) exactly as it was — so after a shrink an Active room's
index can be ≥ the new roster length (see the counterexample); the index is
reduced modulo the new roster length only by the next turn advance, which
always yields an index < roster length; while the index is out of range,
getDiscussionState reports no current speaker. -/
theorem claim_C1_index_revalidation :
    (∀ g k u sc k' r', findRoom (removeUserFromRoom g k u sc) k' = some r' →
      (∃ r0, findRoom g k' = some r0 ∧ r'.discussion = r0.discussion) ∨
        (findRoom g k' = none ∧ r'.discussion = initialDiscussion)) ∧
    (∀ g k (r : Room), findRoom g k = some r → r.discussion.active = true →
      0 < r.participants.length →
      ∀ r', findRoom (advanceToNextSpeaker g k).1 k = some r' →
        r'.participants = r.participants ∧
        r'.discussion.currentSpeakerIndex < r.participants.length) ∧
    (∀ g k (r : Room), findRoom g k = some r → r.discussion.active = true →
      r.participants.length ≤ r.discussion.currentSpeakerIndex →
      (getDiscussionState g k).2.currentSpeaker = none) := by
  refine ⟨?_, ?_, ?_⟩
  · intro g k u sc k' r' hfind
    cases hr : findRoom g k with
    | some r0k =>
      by_cases hcond : ((r0k.participants.filter (fun p => p.id ≠ u)).isEmpty = true
          ∧ sc = false)
      · obtain ⟨hemp, hsc⟩ := hcond
        have hfil : r0k.participants.filter (fun p => p.id ≠ u) = [] := by
          cases hfl : r0k.participants.filter (fun p => p.id ≠ u) with
          | nil => rfl
          | cons a t => rw [hfl] at hemp; simp [List.isEmpty] at hemp
        rw [hsc] at hfind
        rw [removeUser_found_cleanup hr hfil] at hfind
        by_cases hkk : k' = k
        · rw [hkk, findRoom_filterkey_self] at hfind
          cases hfind
        · rw [findRoom_filterkey_ne _ _ _ hkk] at hfind
          exact Or.inl ⟨r', hfind, rfl⟩
      · rw [removeUser_found_keep sc hr hcond] at hfind
        by_cases hkk : k' = k
        · subst hkk
          rw [findRoom_setRoom_self, hr] at hfind
          have : r' = { r0k with participants :=
              r0k.participants.filter (fun p => p.id ≠ u) } := by
            exact (Option.some.inj hfind).symm
          exact Or.inl ⟨r0k, hr, by rw [this]⟩
        · rw [findRoom_setRoom_ne _ _ _ _ hkk] at hfind
          exact Or.inl ⟨r', hfind, rfl⟩
    | none =>
      cases sc with
      | true =>
        have hstep : removeUserFromRoom g k u true
            = setRoom (withFresh g k) k { freshRoom k g.nextGen with participants := (freshRoom k g.nextGen).participants.filter (fun p => p.id ≠ u) } := by
          simp only [removeUserFromRoom, getRoom_miss hr]
          rw [if_neg (by simp)]
        rw [hstep] at hfind
        by_cases hkk : k' = k
        · subst hkk
          rw [findRoom_setRoom_self, findRoom_withFresh_self hr] at hfind
          have hre : r' = { freshRoom k' g.nextGen with participants := (freshRoom k' g.nextGen).participants.filter (fun p => p.id ≠ u) } :=
            (Option.some.inj hfind).symm
          exact Or.inr ⟨hr, by rw [hre]; rfl⟩
        · rw [findRoom_setRoom_ne _ _ _ _ hkk, findRoom_withFresh_ne hkk] at hfind
          exact Or.inl ⟨r', hfind, rfl⟩
      | false =>
        have hrooms : (removeUserFromRoom g k u false).rooms = g.rooms :=
          (removeUser_miss hr).1
        rw [@findRoom_congr (removeUserFromRoom g k u false) g k' hrooms] at hfind
        exact Or.inl ⟨r', hfind, rfl⟩
  · intro g k r h ha hn r' hfind
    by_cases hc : ((r.discussion.currentSpeakerIndex + 1) % r.participants.length = 0
        ∧ 3 < (if (r.discussion.currentSpeakerIndex + 1) % r.participants.length = 0 then r.discussion.round + 1 else r.discussion.round))
    · obtain ⟨hidx, hrnd⟩ := hc
      rw [if_pos hidx] at hrnd
      rw [advance_end_spec h ha hn hidx hrnd] at hfind
      simp only at hfind
      rw [findRoom_setRoom_self, findRoom_clearTimer, h] at hfind
      have hre := (Option.some.inj hfind).symm
      rw [hre]
      exact ⟨rfl, hn⟩
    · rw [advance_cont_spec h ha hn hc] at hfind
      simp only at hfind
      rw [findRoom_timersmod, findRoom_setRoom_self, findRoom_clearTimer, h] at hfind
      have hre := (Option.some.inj hfind).symm
      rw [hre]
      exact ⟨rfl, Nat.mod_lt _ hn⟩
  · intro g k r h ha hle
    have hnone : r.participants.get? r.discussion.currentSpeakerIndex = none :=
      List.get?_len_le hle
    simp only [getDiscussionState, getRoom_found h, hnone]
    split <;> rfl

/-- Witness for claim C1: in the stale-index state, the view reports no current
speaker, and the next turn advance restores an index below the roster length. -/
theorem claim_C1_witness :
    (getDiscussionState gStale "r").2.currentSpeaker = none ∧
      advStale.discussion.currentSpeakerIndex < roomStale.participants.length := by
  constructor
  · exact claim_C1_index_revalidation.2.2 gStale "r" roomStale (by decide) (by decide)
      (by decide)
  · exact (claim_C1_index_revalidation.2.1 gStale "r" roomStale (by decide) (by decide)
      (by decide) advStale (by decide)).2

/-! ### Claim C4: the turn-advance algorithm -/

/-- Claim C4: turn advance — triggered identically by timer expiry and by an
explicit next-speaker request on an Active room with a non-empty roster —
cancels the current timer, sets index := (index+1) mod rosterLength, increments
the round exactly when the index wrapped to 0, ends the discussion (timer
cleared, discussion-ended emitted) when the round then exceeds 3, and otherwise
resets time-remaining to the full turn duration, emits speaker-changed with the
new speaker, time and round, and starts a fresh countdown; in a healthy
registry the cancelled interval is gone, so no tick of the old countdown can
occur after the transition. -/
theorem claim_C4_turn_advance :
    (∀ g k (r : Room), findRoom g k = some r → r.discussion.active = true →
      0 < r.participants.length →
      (r.discussion.currentSpeakerIndex + 1) % r.participants.length = 0 →
      3 < r.discussion.round + 1 →
      advanceToNextSpeaker g k
        = (setRoom (clearTimerHandle g r.discussion.timer) k { r with discussion := { r.discussion with timer := none, currentSpeakerIndex := 0, round := r.discussion.round + 1, active := false, endedAt := some 0 } },
           [Emission.discussionEnded k])) ∧
    (∀ g k (r : Room), findRoom g k = some r → r.discussion.active = true →
      0 < r.participants.length →
      ¬((r.discussion.currentSpeakerIndex + 1) % r.participants.length = 0 ∧ 3 < (if (r.discussion.currentSpeakerIndex + 1) % r.participants.length = 0 then r.discussion.round + 1 else r.discussion.round)) →
      advanceToNextSpeaker g k
        = ({ setRoom (clearTimerHandle g r.discussion.timer) k { r with discussion := { r.discussion with timer := some (clearTimerHandle g r.discussion.timer).nextHandle, currentSpeakerIndex := (r.discussion.currentSpeakerIndex + 1) % r.participants.length, round := (if (r.discussion.currentSpeakerIndex + 1) % r.participants.length = 0 then r.discussion.round + 1 else r.discussion.round), timeRemaining := r.discussion.speakingTime } } with timers := (clearTimerHandle g r.discussion.timer).timers ++ [⟨(clearTimerHandle g r.discussion.timer).nextHandle, k, r.gen⟩], nextHandle := (clearTimerHandle g r.discussion.timer).nextHandle + 1 },
           [Emission.speakerChanged k (r.participants.get? ((r.discussion.currentSpeakerIndex + 1) % r.participants.length)) r.discussion.speakingTime (if (r.discussion.currentSpeakerIndex + 1) % r.participants.length = 0 then r.discussion.round + 1 else r.discussion.round)])) ∧
    (∀ s sockId (kk : SocketSt) k (r : Room), findSocket s sockId = some kk →
      kk.currentRoom = some k → findRoom s.reg k = some r →
      r.discussion.active = true →
      onNextSpeaker s sockId
        = ({ s with reg := (advanceToNextSpeaker s.reg k).1 },
           (advanceToNextSpeaker s.reg k).2)) ∧
    (∀ g h0 (t : TimerRec) (room : Room),
      g.timers.find? (fun t0 => t0.handle = h0) = some t →
      findRoom g t.roomId = some room → room.gen = t.gen →
      room.discussion.timeRemaining - 1 ≤ 0 →
      timerFire g h0
        = ((advanceToNextSpeaker (setRoom g t.roomId { room with discussion := { room.discussion with timeRemaining := room.discussion.timeRemaining - 1 } }) t.roomId).1,
           Emission.timerUpdate t.roomId (room.discussion.timeRemaining - 1)
             :: (advanceToNextSpeaker (setRoom g t.roomId { room with discussion := { room.discussion with timeRemaining := room.discussion.timeRemaining - 1 } }) t.roomId).2)) ∧
    (∀ g k (r : Room) h0, TReg g → findRoom g k = some r →
      r.discussion.timer = some h0 →
      ∀ t, t ∈ (clearTimerHandle g r.discussion.timer).timers → ¬t.roomId = k) := by
  refine ⟨fun g k r h ha hn hidx hrnd => advance_end_spec h ha hn hidx hrnd,
    fun g k r h ha hn hc => advance_cont_spec h ha hn hc,
    fun s sockId kk k r hk hc hf ha => onNextSpeaker_advances hk hc hf ha,
    fun g h0 t room hft hroom hgen hexp => timerFire_advances hft hroom hgen hexp,
    ?_⟩
  intro g k r h0 htr h hslot t ht hk
  obtain ⟨hnd, hhand, hbound, hP4, hP5, hP6⟩ := htr
  rw [hslot] at ht
  simp only [clearTimerHandle] at ht
  obtain ⟨htm, hneq⟩ := List.mem_filter.mp ht
  obtain ⟨kv, hkvmem, hkey, hkvslot, _⟩ := hP5 t htm
  have hfk : findRoom g kv.1 = some kv.2 := findRoom_eq_of_mem hnd hkvmem
  rw [hkey, hk, h] at hfk
  have hkv2 : kv.2 = r := (Option.some.inj hfk).symm
  rw [hkv2, hslot] at hkvslot
  have : t.handle = h0 := (Option.some.inj hkvslot).symm
  simp [this] at hneq

/-- Witness for claim C4: the next-speaker request of socket s1 in the active
two-user state runs the shared advance algorithm. -/
theorem claim_C4_witness :
    onNextSpeaker sActive "s1"
      = ({ sActive with reg := (advanceToNextSpeaker sActive.reg "r").1 },
         (advanceToNextSpeaker sActive.reg "r").2) :=
  claim_C4_turn_advance.2.2.1 sActive "s1" sockA "r" roomActive (by decide) (by decide)
    (by decide) (by decide)

/-! ### Claim C7: the signaling relay -/

theorem mem_roomMembers {s : ServerState} {name m : String} (hm : m ∈ roomMembers s name) :
    ∃ kk ∈ s.sockets, kk.sockId = m ∧ (kk.sockId = name ∨ name ∈ kk.joinedRooms) := by
  simp only [roomMembers, List.mem_map] at hm
  obtain ⟨kk, hkk, rfl⟩ := hm
  have hf := List.mem_filter.mp hkk
  exact ⟨kk, hf.1, rfl, by simpa using hf.2⟩

theorem relay_mem {s : ServerState} {sender : String} {target : Option String}
    {d : Delivery} (hd : d ∈ relayDeliveries s sender target) :
    ∃ t', target = some t' ∧ d.fromSocketId = sender ∧ d.toSock ∈ roomMembers s t' := by
  cases ht : target with
  | none =>
    rw [ht] at hd
    simp [relayDeliveries] at hd
  | some t =>
    rw [ht] at hd
    simp only [relayDeliveries] at hd
    rcases List.mem_append.mp hd with h1 | h1
    · by_cases he : t = ""
      · rw [if_pos he] at h1
        cases h1
      · rw [if_neg he] at h1
        obtain ⟨m, hm, rfl⟩ := List.mem_map.mp h1
        exact ⟨t, rfl, rfl, hm⟩
    · obtain ⟨m, hm, rfl⟩ := List.mem_map.mp h1
      exact ⟨t, rfl, rfl, hm⟩

/-- Claim C7 (amended): each of the two registered relay handlers forwards the
payload, tagged with the sender's socket id, to every member of the socket.io
room named by targetSocketId; with a missing target or a memberless room name
nothing is delivered and nothing is sent back to the sender; when the target
names a connected socket and no socket has joined a room of that name, every
delivery goes to exactly that socket. -/
theorem claim_C7_relay (s : ServerState) (sender : String) (target : Option String) :
    (∀ d ∈ relayDeliveries s sender target, d.fromSocketId = sender ∧
      ∃ t', target = some t' ∧ d.toSock ∈ roomMembers s t') ∧
    (target = none → relayDeliveries s sender target = []) ∧
    (∀ t', target = some t' → roomMembers s t' = [] →
      relayDeliveries s sender target = []) ∧
    (∀ t', target = some t' → (∀ kk ∈ s.sockets, ¬t' ∈ kk.joinedRooms) →
      ∀ d ∈ relayDeliveries s sender target, d.toSock = t') := by
  refine ⟨?_, ?_, ?_, ?_⟩
  · intro d hd
    obtain ⟨t', ht, hfrom, hmem⟩ := relay_mem hd
    exact ⟨hfrom, t', ht, hmem⟩
  · intro ht
    rw [ht]
    rfl
  · intro t' ht hmem
    rw [ht]
    simp [relayDeliveries, hmem]
  · intro t' ht hnojoin d hd
    obtain ⟨t0, ht0, _, hmem⟩ := relay_mem hd
    have htt : t0 = t' := by rw [ht] at ht0; exact (Option.some.inj ht0).symm
    subst htt
    obtain ⟨kk, hkk, hid, hcase⟩ := mem_roomMembers hmem
    rcases hcase with hsame | hjoin
    · rw [← hid, hsame]
    · exact absurd hjoin (hnojoin kk hkk)

/-- Witness for claim C7: relaying to the connected socket s2 (whose id no
socket has joined as a room) delivers only to s2. -/
theorem claim_C7_witness :
    (relayDeliveries sGeneral "s1" (some "s2")).all (fun d => d.toSock = "s2") = true := by
  rw [List.all_eq_true]
  intro d hd
  exact decide_eq_true
    ((claim_C7_relay sGeneral "s1" (some "s2")).2.2.2 "s2" rfl (by decide) d hd)

/-! ### Claim C8: the role-change handler -/

/-- Claim C8 (amended): with the sender's connection known and the target room
already registered, a role-change request is answered with an error reply and
leaves the state unchanged exactly when: the request names no room (no roomId
in the payload and no current room), the requested role is invalid, the
requested role is speaker while the room already holds 6 speakers, or the
target user is not in the room; otherwise the target's role is updated via
changeUserRole, role-changed is broadcast, and a success reply is sent. -/
theorem claim_C8_role_change (s : ServerState) (sockId : String) (data : RoleChangeData)
    (kk : SocketSt) (hk : findSocket s sockId = some kk) :
    (jsOrRoom data.roomId kk.currentRoom = none →
      onRoleChange s sockId data
        = ⟨s, some (RoleReply.errorReply "Not in a room"), false⟩) ∧
    (∀ rid, jsOrRoom data.roomId kk.currentRoom = some rid →
      ¬(data.newRole = "speaker" ∨ data.newRole = "listener") →
      onRoleChange s sockId data
        = ⟨s, some (RoleReply.errorReply "Invalid role"), false⟩) ∧
    (∀ rid (room : Room), jsOrRoom data.roomId kk.currentRoom = some rid →
      findRoom s.reg rid = some room →
      data.newRole = "speaker" → ¬speakersCount room < 6 →
      onRoleChange s sockId data
        = ⟨s, some (RoleReply.errorReply "Speaker limit reached"), false⟩) ∧
    (∀ rid (room : Room), jsOrRoom data.roomId kk.currentRoom = some rid →
      findRoom s.reg rid = some room →
      (data.newRole = "speaker" ∨ data.newRole = "listener") →
      (data.newRole = "speaker" → speakersCount room < 6) →
      (∀ p ∈ room.participants, ¬p.id = data.userId) →
      onRoleChange s sockId data
        = ⟨s, some (RoleReply.errorReply "Failed to change role"), false⟩) ∧
    (∀ rid (room : Room), jsOrRoom data.roomId kk.currentRoom = some rid →
      findRoom s.reg rid = some room →
      (data.newRole = "speaker" ∨ data.newRole = "listener") →
      (data.newRole = "speaker" → speakersCount room < 6) →
      room.participants.any (fun p => p.id = data.userId) = true →
      (onRoleChange s sockId data).reply = some (RoleReply.successReply data.newRole) ∧
      (onRoleChange s sockId data).broadcastRoleChanged = true ∧
      (changeUserRole s.reg rid data.userId data.newRole).2 = true ∧
      (onRoleChange s sockId data).state
        = { s with reg := (changeUserRole s.reg rid data.userId data.newRole).1 }) := by
  refine ⟨?_, ?_, ?_, ?_, ?_⟩
  · intro hjr
    simp [onRoleChange, hk, hjr]
  · intro rid hjr hbad
    simp only [onRoleChange, hk, hjr]
    rw [if_pos hbad]
  · intro rid room hjr hroom hsp hcap
    have hok : data.newRole = "speaker" ∨ data.newRole = "listener" := Or.inl hsp
    simp only [onRoleChange, hk, hjr]
    rw [if_neg (not_not_intro hok), if_pos hsp]
    simp [canBecomeSpeaker, getRoom_found hroom, hcap]
  · intro rid room hjr hroom hok hcap hnone
    have hany : room.participants.any (fun p => p.id = data.userId) = false :=
      List.any_eq_false.mpr (fun p hp => by simpa using hnone p hp)
    have hch : changeUserRole s.reg rid data.userId data.newRole = (s.reg, false) := by
      cases hok with
      | inl hsp => simp [changeUserRole, hsp, getRoom_found hroom, hany]
      | inr hli => simp [changeUserRole, hli, getRoom_found hroom, hany]
    simp only [onRoleChange, hk, hjr]
    rw [if_neg (not_not_intro hok)]
    by_cases hsp : data.newRole = "speaker"
    · rw [if_pos hsp]
      simp [canBecomeSpeaker, getRoom_found hroom, hcap hsp, hch]
    · rw [if_neg hsp]
      simp [hch]
  · intro rid room hjr hroom hok hcap hany
    have hch2 : (changeUserRole s.reg rid data.userId data.newRole).2 = true := by
      cases hok with
      | inl hsp => simp [changeUserRole, hsp, getRoom_found hroom, hany]
      | inr hli => simp [changeUserRole, hli, getRoom_found hroom, hany]
    have hred : onRoleChange s sockId data
        = ⟨{ s with reg := (changeUserRole s.reg rid data.userId data.newRole).1 },
           some (RoleReply.successReply data.newRole), true⟩ := by
      simp only [onRoleChange, hk, hjr]
      rw [if_neg (not_not_intro hok)]
      by_cases hsp : data.newRole = "speaker"
      · rw [if_pos hsp]
        simp [canBecomeSpeaker, getRoom_found hroom, hcap hsp, hch2]
      · rw [if_neg hsp]
        simp [hch2]
    rw [hred]
    exact ⟨rfl, rfl, hch2, rfl⟩

/-- Witness for claim C8: against the one-user room r, an absent target yields
the error reply with unchanged state, and promoting user a succeeds. -/
theorem claim_C8_witness :
    onRoleChange sRole "s1" ⟨"ghost", "listener", none⟩
        = ⟨sRole, some (RoleReply.errorReply "Failed to change role"), false⟩ ∧
      (onRoleChange sRole "s1" ⟨"a", "speaker", none⟩).reply
        = some (RoleReply.successReply "speaker") := by
  constructor
  · exact (claim_C8_role_change sRole "s1" ⟨"ghost", "listener", none⟩ sockR
      (by decide)).2.2.2.1 "r" roomR (by decide) (by decide) (Or.inr rfl)
      (fun hsp => absurd hsp (by decide)) (by decide)
  · exact ((claim_C8_role_change sRole "s1" ⟨"a", "speaker", none⟩ sockR
      (by decide)).2.2.2.2 "r" roomR (by decide) (by decide) (Or.inl rfl)
      (fun _ => by decide) (by decide)).1

/-! ### Registry health: preservation lemmas -/

theorem findRoom_some_mem {g : Reg} {k : String} {r : Room}
    (h : findRoom g k = some r) : (k, r) ∈ g.rooms := by
  simp only [findRoom, Option.map_eq_some'] at h
  obtain ⟨kv, hfind, hsnd⟩ := h
  have hmem := List.mem_of_find?_eq_some hfind
  have hkey : kv.1 = k := by simpa using List.find?_some hfind
  have : kv = (k, r) := Prod.ext hkey hsnd
  rw [← this]
  exact hmem

theorem keys_nodup_entry_eq {g : Reg} (hnd : (g.rooms.map Prod.fst).Nodup)
    {kv : String × Room} {r : Room} (hm : kv ∈ g.rooms) (h : findRoom g kv.1 = some r) :
    kv.2 = r := by
  have := findRoom_eq_of_mem hnd hm
  rw [h] at this
  exact (Option.some.inj this).symm

/-- Preservation of TReg under replacing a registered room by one with the same
timer slot and the same object identity (participants / readiness / role /
countdown edits), provided an inactive replacement carries no timer. -/
theorem TReg_setRoom_sameTimer {g : Reg} {k : String} {r0 r' : Room}
    (ht : TReg g) (h : findRoom g k = some r0)
    (hslot : r'.discussion.timer = r0.discussion.timer) (hgen : r'.gen = r0.gen)
    (hact : r'.discussion.active = false → r'.discussion.timer = none) :
    TReg (setRoom g k r') := by
  obtain ⟨hnd, hhand, hbound, hP4, hP5, hP6⟩ := ht
  have hmem0 : (k, r0) ∈ g.rooms := findRoom_some_mem h
  refine ⟨by rw [setRoom_keys]; exact hnd, by rw [setRoom_timers]; exact hhand,
    ?_, ?_, ?_, ?_⟩
  · intro t htm
    rw [setRoom_timers] at htm
    exact hbound t htm
  · intro kv hkv t htrec
    rw [setRoom_timers]
    rcases mem_setRoom.mp hkv with ⟨kv0, hkv0, hkey, rfl⟩ | ⟨hkv0, hne⟩
    · have hkv02 : kv0.2 = r0 := keys_nodup_entry_eq hnd hkv0 (by rw [hkey]; exact h)
      have hrec0 : t ∈ slotRecs (k, r0) := by
        simp only [slotRecs, hslot, hgen] at htrec
        simpa [slotRecs] using htrec
      exact hP4 (k, r0) hmem0 t hrec0
    · exact hP4 kv hkv0 t htrec
  · intro t htm
    rw [setRoom_timers] at htm
    obtain ⟨kv1, hkv1, hkey, hkslot, hkgen⟩ := hP5 t htm
    by_cases hk1 : kv1.1 = k
    · have hkv12 : kv1.2 = r0 := keys_nodup_entry_eq hnd hkv1 (by rw [hk1]; exact h)
      refine ⟨(k, r'), mem_setRoom.mpr (Or.inl ⟨kv1, hkv1, hk1, rfl⟩), ?_, ?_, ?_⟩
      · rw [← hk1]; exact hkey
      · show r'.discussion.timer = some t.handle
        rw [hslot, ← hkv12]; exact hkslot
      · show r'.gen = t.gen
        rw [hgen, ← hkv12]; exact hkgen
    · exact ⟨kv1, mem_setRoom.mpr (Or.inr ⟨hkv1, hk1⟩), hkey, hkslot, hkgen⟩
  · intro kv hkv hina
    rcases mem_setRoom.mp hkv with ⟨kv0, hkv0, hkey, rfl⟩ | ⟨hkv0, hne⟩
    · exact hact hina
    · exact hP6 kv hkv0 hina

/-- Preservation of TReg under registering a fresh (idle) room. -/
theorem TReg_withFresh {g : Reg} {k : String} (ht : TReg g) (h : findRoom g k = none) :
    TReg (withFresh g k) := by
  obtain ⟨hnd, hhand, hbound, hP4, hP5, hP6⟩ := ht
  have hkeys : ∀ kv ∈ g.rooms, kv.1 ≠ k := (findRoom_none_iff g k).mp h
  refine ⟨?_, hhand, hbound, ?_, ?_, ?_⟩
  · show ((g.rooms ++ [(k, freshRoom k g.nextGen)]).map Prod.fst).Nodup
    rw [List.map_append]
    rw [List.nodup_append]
    refine ⟨hnd, by simp, ?_⟩
    intro x hx
    simp only [List.map_cons, List.map_nil, List.mem_singleton]
    obtain ⟨kv, hkv, rfl⟩ := List.mem_map.mp hx
    simpa using hkeys kv hkv
  · intro kv hkv t htrec
    rcases List.mem_append.mp hkv with hl | hr
    · exact hP4 kv hl t htrec
    · have : kv = (k, freshRoom k g.nextGen) := by simpa using hr
      rw [this] at htrec
      simp [slotRecs, freshRoom, initialDiscussion] at htrec
  · intro t htm
    obtain ⟨kv1, hkv1, hkey, hkslot, hkgen⟩ := hP5 t htm
    exact ⟨kv1, List.mem_append.mpr (Or.inl hkv1), hkey, hkslot, hkgen⟩
  · intro kv hkv hina
    rcases List.mem_append.mp hkv with hl | hr
    · exact hP6 kv hl hina
    · have : kv = (k, freshRoom k g.nextGen) := by simpa using hr
      rw [this]
      rfl

theorem TReg_getRoom {g : Reg} (k : String) (ht : TReg g) : TReg (getRoom g k).1 := by
  cases h : findRoom g k with
  | some r => rw [getRoom_found h]; exact ht
  | none => rw [getRoom_miss h]; exact TReg_withFresh ht h

/-- In a healthy registry, any live interval for room k is the stored slot of
the registered room k. -/
theorem TReg_krec {g : Reg} (ht : TReg g) {t : TimerRec} (htm : t ∈ g.timers)
    {k : String} (hk : t.roomId = k) :
    ∃ r, findRoom g k = some r ∧ r.discussion.timer = some t.handle ∧ r.gen = t.gen := by
  obtain ⟨hnd, _, _, _, hP5, _⟩ := ht
  obtain ⟨kv1, hkv1, hkey, hkslot, hkgen⟩ := hP5 t htm
  have hf : findRoom g k = some kv1.2 := by
    rw [← hk, ← hkey]
    exact findRoom_eq_of_mem hnd hkv1
  exact ⟨kv1.2, hf, hkslot, hkgen⟩

theorem TReg_no_krec_slot_none {g : Reg} (ht : TReg g) {k : String} {r : Room}
    (h : findRoom g k = some r) (hs : r.discussion.timer = none) :
    ∀ t ∈ g.timers, ¬t.roomId = k := by
  intro t htm hk
  obtain ⟨r1, hf1, hsl, _⟩ := TReg_krec ht htm hk
  rw [h] at hf1
  rw [(Option.some.inj hf1).symm, hs] at hsl
  cases hsl

theorem TReg_no_krec_missing {g : Reg} (ht : TReg g) {k : String}
    (h : findRoom g k = none) : ∀ t ∈ g.timers, ¬t.roomId = k := by
  intro t htm hk
  obtain ⟨r1, hf1, _, _⟩ := TReg_krec ht htm hk
  rw [h] at hf1
  cases hf1

/-- Distinct live intervals have distinct handles, so a record of another room
cannot carry the handle of room k's slot. -/
theorem TReg_rec_handle_ne {g : Reg} (ht : TReg g) {k : String} {r0 : Room}
    (h : findRoom g k = some r0) {h0 : Nat} (hs : r0.discussion.timer = some h0)
    {t : TimerRec} (htm : t ∈ g.timers) (hne : ¬t.roomId = k) : ¬t.handle = h0 := by
  intro heq
  have ht0mem : (⟨h0, k, r0.gen⟩ : TimerRec) ∈ g.timers := by
    have hm := findRoom_some_mem h
    exact ht.2.2.2.1 (k, r0) hm ⟨h0, k, r0.gen⟩ (by simp [slotRecs, hs])
  have hinj := List.inj_on_of_nodup_map ht.2.1
  have : t = ⟨h0, k, r0.gen⟩ := hinj htm ht0mem (by simpa using heq)
  rw [this] at hne
  exact hne rfl

theorem clear_subset {g : Reg} {x : Option Nat} {t : TimerRec}
    (htm : t ∈ (clearTimerHandle g x).timers) :
    t ∈ g.timers ∧ ∀ h0, x = some h0 → ¬t.handle = h0 := by
  cases x with
  | none => exact ⟨htm, fun h0 hx => by cases hx⟩
  | some h0 =>
    simp only [clearTimerHandle] at htm
    obtain ⟨hm, hne⟩ := List.mem_filter.mp htm
    exact ⟨hm, fun h1 hx => by rw [← Option.some.inj hx]; simpa using hne⟩

theorem clear_timers_sublist (g : Reg) (x : Option Nat) :
    List.Sublist (clearTimerHandle g x).timers g.timers := by
  cases x with
  | none => exact List.Sublist.refl _
  | some h0 => exact List.filter_sublist _

/-- The slot interval of a room other than k survives clearing room k's slot. -/
theorem slotRec_in_clear {g : Reg} {k : String} {r : Room} (ht : TReg g)
    (h : findRoom g k = some r) {kv : String × Room} (hkv : kv ∈ g.rooms)
    (hne : ¬kv.1 = k) {t : TimerRec} (htrec : t ∈ slotRecs kv) :
    t ∈ (clearTimerHandle g r.discussion.timer).timers := by
  have htm : t ∈ g.timers := ht.2.2.2.1 kv hkv t htrec
  have hkrec : t.roomId = kv.1 := by
    cases hsl : kv.2.discussion.timer with
    | none => simp [slotRecs, hsl] at htrec
    | some hh =>
      simp only [slotRecs, hsl, List.mem_singleton] at htrec
      rw [htrec]
  cases hslot : r.discussion.timer with
  | none => exact htm
  | some h0 =>
    simp only [clearTimerHandle]
    refine List.mem_filter.mpr ⟨htm, ?_⟩
    have := TReg_rec_handle_ne ht h hslot htm (by rw [hkrec]; exact hne)
    simpa using this

/-- Preservation of TReg under clearing room k's slot interval and replacing
room k by one without a timer (the endDiscussion / discussion-end shape). -/
theorem TReg_clear_setRoom {g : Reg} {k : String} {r r' : Room} (ht : TReg g)
    (h : findRoom g k = some r) (hslot : r'.discussion.timer = none) :
    TReg (setRoom (clearTimerHandle g r.discussion.timer) k r') := by
  obtain ⟨hnd, hhand, hbound, hP4, hP5, hP6⟩ := ht
  have hts := clear_timers_sublist g r.discussion.timer
  refine ⟨?_, ?_, ?_, ?_, ?_, ?_⟩
  · rw [setRoom_keys, clearTimer_rooms]
    exact hnd
  · rw [setRoom_timers]
    exact List.Nodup.sublist (List.Sublist.map _ hts) hhand
  · intro t htm
    rw [setRoom_timers] at htm
    have := (clear_subset htm).1
    rw [setRoom_nextHandle, clearTimer_nextHandle]
    exact hbound t this
  · intro kv hkv t htrec
    rw [setRoom_timers]
    rcases mem_setRoom.mp hkv with ⟨kv0, hkv0, hkey, rfl⟩ | ⟨hkv0, hne⟩
    · rw [slotRecs, hslot] at htrec
      cases htrec
    · have hkv0' : kv ∈ g.rooms := by rw [← clearTimer_rooms g r.discussion.timer]; exact hkv0
      exact slotRec_in_clear ⟨hnd, hhand, hbound, hP4, hP5, hP6⟩ h hkv0' hne htrec
  · intro t htm
    rw [setRoom_timers] at htm
    obtain ⟨htg, hnoth⟩ := clear_subset htm
    obtain ⟨kv1, hkv1, hkey, hkslot, hkgen⟩ := hP5 t htg
    by_cases hk1 : kv1.1 = k
    · exfalso
      have hkv12 : kv1.2 = r := keys_nodup_entry_eq hnd hkv1 (by rw [hk1]; exact h)
      rw [hkv12] at hkslot
      exact hnoth t.handle hkslot rfl
    · refine ⟨kv1, ?_, hkey, hkslot, hkgen⟩
      refine mem_setRoom.mpr (Or.inr ⟨?_, hk1⟩)
      rw [clearTimer_rooms]
      exact hkv1
  · intro kv hkv hina
    rcases mem_setRoom.mp hkv with ⟨kv0, hkv0, hkey, rfl⟩ | ⟨hkv0, hne⟩
    · exact hslot
    · have hkv0' : kv ∈ g.rooms := by rw [← clearTimer_rooms g r.discussion.timer]; exact hkv0
      exact hP6 kv hkv0' hina

/-- Preservation of TReg under clearing room k's slot, starting a fresh interval
for it and storing the new handle (the startSpeakingTimer shape). -/
theorem TReg_start_form {g : Reg} {k : String} {r r' : Room} (ht : TReg g)
    (h : findRoom g k = some r)
    (hslot : r'.discussion.timer = some (clearTimerHandle g r.discussion.timer).nextHandle)
    (hgen : r'.gen = r.gen) (hact : r'.discussion.active = true) :
    TReg { setRoom (clearTimerHandle g r.discussion.timer) k r' with timers := (clearTimerHandle g r.discussion.timer).timers ++ [⟨(clearTimerHandle g r.discussion.timer).nextHandle, k, r.gen⟩], nextHandle := (clearTimerHandle g r.discussion.timer).nextHandle + 1 } := by
  obtain ⟨hnd, hhand, hbound, hP4, hP5, hP6⟩ := ht
  have hts := clear_timers_sublist g r.discussion.timer
  have hnh : (clearTimerHandle g r.discussion.timer).nextHandle = g.nextHandle :=
    clearTimer_nextHandle g _
  refine ⟨?_, ?_, ?_, ?_, ?_, ?_⟩
  · show ((setRoom (clearTimerHandle g r.discussion.timer) k r').rooms.map Prod.fst).Nodup
    rw [setRoom_keys, clearTimer_rooms]
    exact hnd
  · show (((clearTimerHandle g r.discussion.timer).timers ++ [(⟨(clearTimerHandle g r.discussion.timer).nextHandle, k, r.gen⟩ : TimerRec)]).map TimerRec.handle).Nodup
    rw [List.map_append]
    rw [List.nodup_append]
    refine ⟨List.Nodup.sublist (List.Sublist.map _ hts) hhand, by simp, ?_⟩
    intro x hx
    simp only [List.map_cons, List.map_nil, List.mem_singleton]
    obtain ⟨t, htm, rfl⟩ := List.mem_map.mp hx
    have := hbound t (clear_subset htm).1
    rw [hnh]
    omega
  · intro t htm
    show t.handle < (clearTimerHandle g r.discussion.timer).nextHandle + 1
    rcases List.mem_append.mp htm with hl | hr
    · have := hbound t (clear_subset hl).1
      omega
    · have : t = ⟨(clearTimerHandle g r.discussion.timer).nextHandle, k, r.gen⟩ := by
        simpa using hr
      rw [this]
      show (clearTimerHandle g r.discussion.timer).nextHandle
        < (clearTimerHandle g r.discussion.timer).nextHandle + 1
      omega
  · intro kv hkv t htrec
    rcases mem_setRoom.mp hkv with ⟨kv0, hkv0, hkey, rfl⟩ | ⟨hkv0, hne⟩
    · rw [slotRecs, hslot] at htrec
      have : t = ⟨(clearTimerHandle g r.discussion.timer).nextHandle, k, r'.gen⟩ := by
        simpa using htrec
      rw [this, hgen]
      exact List.mem_append.mpr (Or.inr (by simp))
    · have hkv0' : kv ∈ g.rooms := by rw [← clearTimer_rooms g r.discussion.timer]; exact hkv0
      exact List.mem_append.mpr (Or.inl
        (slotRec_in_clear ⟨hnd, hhand, hbound, hP4, hP5, hP6⟩ h hkv0' hne htrec))
  · intro t htm
    rcases List.mem_append.mp htm with hl | hr
    · obtain ⟨htg, hnoth⟩ := clear_subset hl
      obtain ⟨kv1, hkv1, hkey, hkslot, hkgen⟩ := hP5 t htg
      by_cases hk1 : kv1.1 = k
      · exfalso
        have hkv12 : kv1.2 = r := keys_nodup_entry_eq hnd hkv1 (by rw [hk1]; exact h)
        rw [hkv12] at hkslot
        exact hnoth t.handle hkslot rfl
      · refine ⟨kv1, ?_, hkey, hkslot, hkgen⟩
        refine mem_setRoom.mpr (Or.inr ⟨?_, hk1⟩)
        rw [clearTimer_rooms]
        exact hkv1
    · have htr : t = ⟨(clearTimerHandle g r.discussion.timer).nextHandle, k, r.gen⟩ := by
        simpa using hr
      refine ⟨(k, r'), ?_, ?_, ?_, ?_⟩
      · refine mem_setRoom.mpr (Or.inl ⟨(k, r), ?_, rfl, rfl⟩)
        rw [clearTimer_rooms]
        exact findRoom_some_mem h
      · rw [htr]
      · rw [htr, hslot]
      · rw [htr, hgen]
  · intro kv hkv hina
    rcases mem_setRoom.mp hkv with ⟨kv0, hkv0, hkey, rfl⟩ | ⟨hkv0, hne⟩
    · rw [hact] at hina
      cases hina
    · have hkv0' : kv ∈ g.rooms := by rw [← clearTimer_rooms g r.discussion.timer]; exact hkv0
      exact hP6 kv hkv0' hina

theorem TReg_of_parts {g g' : Reg} (hr : g'.rooms = g.rooms) (htm : g'.timers = g.timers)
    (hnh : g'.nextHandle = g.nextHandle) (ht : TReg g) : TReg g' := by
  obtain ⟨hnd, hhand, hbound, hP4, hP5, hP6⟩ := ht
  exact ⟨by rw [hr]; exact hnd, by rw [htm]; exact hhand,
    by rw [htm, hnh]; exact hbound, by rw [hr, htm]; exact hP4,
    by rw [hr, htm]; exact hP5, by rw [hr]; exact hP6⟩

theorem removeUser_miss_skip {g : Reg} {k u : String} (h : findRoom g k = none) :
    removeUserFromRoom g k u true
      = setRoom (withFresh g k) k { freshRoom k g.nextGen with participants := (freshRoom k g.nextGen).participants.filter (fun p => p.id ≠ u) } := by
  simp only [removeUserFromRoom, getRoom_miss h]
  rw [if_neg (by simp)]

theorem TReg_remove {g : Reg} (k u : String) (sc : Bool) (ht : TReg g) :
    TReg (removeUserFromRoom g k u sc) := by
  cases h : findRoom g k with
  | some r =>
    by_cases hcond : ((r.participants.filter (fun p => p.id ≠ u)).isEmpty = true ∧ sc = false)
    · obtain ⟨hemp, hsc⟩ := hcond
      have hfil : r.participants.filter (fun p => p.id ≠ u) = [] := by
        cases hfl : r.participants.filter (fun p => p.id ≠ u) with
        | nil => rfl
        | cons a t => rw [hfl] at hemp; simp [List.isEmpty] at hemp
      rw [hsc, removeUser_found_cleanup h hfil]
      obtain ⟨hnd, hhand, hbound, hP4, hP5, hP6⟩ := ht
      have hts := clear_timers_sublist g r.discussion.timer
      refine ⟨?_, ?_, ?_, ?_, ?_, ?_⟩
      · show ((g.rooms.filter (fun kv => kv.1 ≠ k)).map Prod.fst).Nodup
        exact List.Nodup.sublist (List.Sublist.map _ (List.filter_sublist _)) hnd
      · exact List.Nodup.sublist (List.Sublist.map _ hts) hhand
      · intro t htm
        exact hbound t (clear_subset htm).1
      · intro kv hkv t htrec
        have hf := List.mem_filter.mp hkv
        have hne : ¬kv.1 = k := by simpa using hf.2
        exact slotRec_in_clear ⟨hnd, hhand, hbound, hP4, hP5, hP6⟩ h hf.1 hne htrec
      · intro t htm
        obtain ⟨htg, hnoth⟩ := clear_subset htm
        obtain ⟨kv1, hkv1, hkey, hkslot, hkgen⟩ := hP5 t htg
        by_cases hk1 : kv1.1 = k
        · exfalso
          have hkv12 : kv1.2 = r := keys_nodup_entry_eq hnd hkv1 (by rw [hk1]; exact h)
          rw [hkv12] at hkslot
          exact hnoth t.handle hkslot rfl
        · exact ⟨kv1, List.mem_filter.mpr ⟨hkv1, by simpa using hk1⟩, hkey, hkslot, hkgen⟩
      · intro kv hkv hina
        exact hP6 kv (List.mem_filter.mp hkv).1 hina
    · rw [removeUser_found_keep sc h hcond]
      exact TReg_setRoom_sameTimer ht h rfl rfl
        (fun hina => ht.2.2.2.2.2 (k, r) (findRoom_some_mem h) hina)
  | none =>
    cases sc with
    | false =>
      exact TReg_of_parts (removeUser_miss h).1 (removeUser_miss h).2.1
        (removeUser_miss h).2.2 ht
    | true =>
      rw [removeUser_miss_skip h]
      exact TReg_setRoom_sameTimer (TReg_withFresh ht h) (findRoom_withFresh_self h)
        rfl rfl (fun _ => rfl)

theorem addUser_miss_eq {g : Reg} {k : String} (u : UserData) (h : findRoom g k = none) :
    addUserToRoom g k u
      = setRoom (withFresh g k) k { freshRoom k g.nextGen with participants := [mkParticipant u] } := by
  have hg1 : findRoom (withFresh g k) k = some (freshRoom k g.nextGen) :=
    findRoom_withFresh_self h
  have hkeep := @removeUser_found_keep (withFresh g k) k u.id (freshRoom k g.nextGen)
    true hg1 (by simp)
  have hfindF : findRoom (setRoom (withFresh g k) k
      { freshRoom k g.nextGen with participants :=
          (freshRoom k g.nextGen).participants.filter (fun p => p.id ≠ u.id) }) k
      = some { freshRoom k g.nextGen with participants :=
          (freshRoom k g.nextGen).participants.filter (fun p => p.id ≠ u.id) } := by
    rw [findRoom_setRoom_self, hg1]; rfl
  simp only [addUserToRoom, getRoom_miss h, hkeep, getRoom_found hfindF, setRoom_setRoom]
  rfl

theorem TReg_addUser {g : Reg} (k : String) (u : UserData) (ht : TReg g) :
    TReg (addUserToRoom g k u) := by
  cases h : findRoom g k with
  | some r =>
    rw [addUser_found u h]
    exact TReg_setRoom_sameTimer ht h rfl rfl
      (fun hina => ht.2.2.2.2.2 (k, r) (findRoom_some_mem h) hina)
  | none =>
    rw [addUser_miss_eq u h]
    exact TReg_setRoom_sameTimer (TReg_withFresh ht h) (findRoom_withFresh_self h)
      rfl rfl (fun _ => rfl)

theorem TReg_updateUser {g : Reg} (k u : String) (rdy : Bool) (ht : TReg g) :
    TReg (updateUser g k u rdy) := by
  cases h : findRoom g k with
  | some r =>
    have heq : updateUser g k u rdy = setRoom g k { r with participants := updateFirst r.participants u (fun p => { p with isReady := rdy }) } := by
      simp [updateUser, getRoom_found h]
    rw [heq]
    exact TReg_setRoom_sameTimer ht h rfl rfl
      (fun hina => ht.2.2.2.2.2 (k, r) (findRoom_some_mem h) hina)
  | none =>
    have heq : updateUser g k u rdy = setRoom (withFresh g k) k { freshRoom k g.nextGen with participants := updateFirst (freshRoom k g.nextGen).participants u (fun p => { p with isReady := rdy }) } := by
      simp [updateUser, getRoom_miss h]
    rw [heq]
    exact TReg_setRoom_sameTimer (TReg_withFresh ht h) (findRoom_withFresh_self h)
      rfl rfl (fun _ => rfl)

theorem TReg_changeUserRole {g : Reg} (k u nr : String) (ht : TReg g) :
    TReg (changeUserRole g k u nr).1 := by
  by_cases hok : (nr = "speaker" ∨ nr = "listener")
  · cases h : findRoom g k with
    | some r =>
      by_cases hany : r.participants.any (fun p => p.id = u) = true
      · have heq : (changeUserRole g k u nr).1 = setRoom g k { r with participants := updateFirst r.participants u (fun p => { p with role := nr }) } := by
          simp [changeUserRole, hok, getRoom_found h, hany]
        rw [heq]
        exact TReg_setRoom_sameTimer ht h rfl rfl
          (fun hina => ht.2.2.2.2.2 (k, r) (findRoom_some_mem h) hina)
      · have heq : (changeUserRole g k u nr).1 = g := by
          simp [changeUserRole, hok, getRoom_found h, hany]
        rw [heq]
        exact ht
    | none =>
      have hanyF : (freshRoom k g.nextGen).participants.any (fun p => p.id = u) = false := rfl
      have heq : (changeUserRole g k u nr).1 = withFresh g k := by
        simp [changeUserRole, hok, getRoom_miss h, hanyF]
      rw [heq]
      exact TReg_withFresh ht h
  · have heq : (changeUserRole g k u nr).1 = g := by
      simp [changeUserRole, hok]
    rw [heq]
    exact ht

theorem startTimer_eq_active {g : Reg} {k : String} {r : Room} (h : findRoom g k = some r)
    (ha : r.discussion.active = true) :
    startSpeakingTimer g k
      = { setRoom (clearTimerHandle g r.discussion.timer) k { r with discussion := { r.discussion with timer := some (clearTimerHandle g r.discussion.timer).nextHandle } } with timers := (clearTimerHandle g r.discussion.timer).timers ++ [⟨(clearTimerHandle g r.discussion.timer).nextHandle, k, r.gen⟩], nextHandle := (clearTimerHandle g r.discussion.timer).nextHandle + 1 } := by
  simp [startSpeakingTimer, getRoom_found h, ha, setRoom_timers, setRoom_nextHandle,
    setRoom_nextGen, setRoom_mk_setRoom, setRoom_mk_rooms]

theorem startTimer_eq_inactive {g : Reg} {k : String} {r : Room} (h : findRoom g k = some r)
    (ha : r.discussion.active = false) : startSpeakingTimer g k = g := by
  simp [startSpeakingTimer, getRoom_found h, ha]

theorem startTimer_eq_miss {g : Reg} {k : String} (h : findRoom g k = none) :
    startSpeakingTimer g k = withFresh g k := by
  have : (freshRoom k g.nextGen).discussion.active = false := rfl
  simp [startSpeakingTimer, getRoom_miss h, this]

theorem TReg_startTimer {g : Reg} (k : String) (ht : TReg g) :
    TReg (startSpeakingTimer g k) := by
  cases h : findRoom g k with
  | some r =>
    cases ha : r.discussion.active with
    | false => rw [startTimer_eq_inactive h ha]; exact ht
    | true =>
      rw [startTimer_eq_active h ha]
      exact TReg_start_form ht h rfl rfl (by simpa using ha)
  | none =>
    rw [startTimer_eq_miss h]
    exact TReg_withFresh ht h

theorem endDiscussion_eq_found {g : Reg} {k : String} {r : Room}
    (h : findRoom g k = some r) :
    endDiscussion g k
      = (setRoom (clearTimerHandle g r.discussion.timer) k { r with discussion := { r.discussion with timer := none, active := false, endedAt := some 0 } },
         [Emission.discussionEnded k]) := by
  simp [endDiscussion, getRoom_found h]

theorem TReg_endDiscussion {g : Reg} (k : String) (ht : TReg g) :
    TReg (endDiscussion g k).1 := by
  cases h : findRoom g k with
  | some r =>
    rw [endDiscussion_eq_found h]
    exact TReg_clear_setRoom ht h rfl
  | none =>
    have heq : (endDiscussion g k).1 = setRoom (withFresh g k) k { freshRoom k g.nextGen with discussion := { (freshRoom k g.nextGen).discussion with timer := none, active := false, endedAt := some 0 } } := by
      simp [endDiscussion, getRoom_miss h, clearTimer_none, freshRoom, initialDiscussion]
    rw [heq]
    exact TReg_setRoom_sameTimer (TReg_withFresh ht h) (findRoom_withFresh_self h)
      rfl rfl (fun _ => rfl)

theorem TReg_advance {g : Reg} (k : String) (ht : TReg g) :
    TReg (advanceToNextSpeaker g k).1 := by
  cases h : findRoom g k with
  | none =>
    have heq : (advanceToNextSpeaker g k).1 = withFresh g k := by
      have : (freshRoom k g.nextGen).discussion.active = false := rfl
      simp [advanceToNextSpeaker, getRoom_miss h, this]
    rw [heq]
    exact TReg_withFresh ht h
  | some r =>
    cases ha : r.discussion.active with
    | false =>
      have heq : (advanceToNextSpeaker g k).1 = g := by
        simp [advanceToNextSpeaker, getRoom_found h, ha]
      rw [heq]
      exact ht
    | true =>
      by_cases hn : 0 < r.participants.length
      · by_cases hc : ((r.discussion.currentSpeakerIndex + 1) % r.participants.length = 0
            ∧ 3 < (if (r.discussion.currentSpeakerIndex + 1) % r.participants.length = 0 then r.discussion.round + 1 else r.discussion.round))
        · obtain ⟨hidx, hrnd⟩ := hc
          rw [if_pos hidx] at hrnd
          rw [advance_end_spec h ha hn hidx hrnd]
          exact TReg_clear_setRoom ht h rfl
        · rw [advance_cont_spec h ha hn hc]
          exact TReg_start_form ht h rfl rfl ha
      · have hz : r.participants.length = 0 := by omega
        have heq : (advanceToNextSpeaker g k).1 = g := by
          simp [advanceToNextSpeaker, getRoom_found h, ha, hz]
        rw [heq]
        exact ht

theorem TReg_checkContinuation (cfg : Config) {g : Reg} (k : String) (ht : TReg g) :
    TReg (checkDiscussionContinuation cfg g k).1 := by
  cases h : findRoom g k with
  | none =>
    have heq : (checkDiscussionContinuation cfg g k).1 = withFresh g k := by
      have : (freshRoom k g.nextGen).discussion.active = false := rfl
      simp [checkDiscussionContinuation, getRoom_miss h, this]
    rw [heq]
    exact TReg_withFresh ht h
  | some r =>
    cases ha : r.discussion.active with
    | false =>
      have heq : (checkDiscussionContinuation cfg g k).1 = g := by
        simp [checkDiscussionContinuation, getRoom_found h, ha]
      rw [heq]
      exact ht
    | true =>
      by_cases hlt : r.participants.length < cfg.minParticipants
      · have heq : (checkDiscussionContinuation cfg g k).1 = (endDiscussion g k).1 := by
          simp [checkDiscussionContinuation, getRoom_found h, ha, hlt]
        rw [heq]
        exact TReg_endDiscussion k ht
      · have heq : (checkDiscussionContinuation cfg g k).1 = g := by
          simp [checkDiscussionContinuation, getRoom_found h, ha, hlt]
        rw [heq]
        exact ht

theorem TReg_timerFire {g : Reg} (h0 : Nat) (ht : TReg g) : TReg (timerFire g h0).1 := by
  cases hft : g.timers.find? (fun t0 => t0.handle = h0) with
  | none =>
    have heq : (timerFire g h0).1 = g := by simp [timerFire, hft]
    rw [heq]
    exact ht
  | some t =>
    cases hroom : findRoom g t.roomId with
    | none =>
      have heq : (timerFire g h0).1 = g := by simp [timerFire, hft, hroom]
      rw [heq]
      exact ht
    | some room =>
      by_cases hgen : room.gen = t.gen
      · have htick : TReg (setRoom g t.roomId { room with discussion := { room.discussion with timeRemaining := room.discussion.timeRemaining - 1 } }) := by
          refine TReg_setRoom_sameTimer ht hroom rfl rfl ?_
          intro hina
          exact ht.2.2.2.2.2 (t.roomId, room) (findRoom_some_mem hroom) hina
        by_cases hexp : room.discussion.timeRemaining - 1 ≤ 0
        · rw [timerFire_advances hft hroom hgen hexp]
          exact TReg_advance t.roomId htick
        · have heq : (timerFire g h0).1 = setRoom g t.roomId { room with discussion := { room.discussion with timeRemaining := room.discussion.timeRemaining - 1 } } := by
            simp [timerFire, hft, hroom, hgen, hexp]
          rw [heq]
          exact htick
      · have heq : (timerFire g h0).1 = g := by simp [timerFire, hft, hroom, hgen]
        rw [heq]
        exact ht

/-! ### Roster identity uniqueness: preservation lemmas -/

/-- Per-registry roster health: no room has two entries with the same id. -/
def RegN (g : Reg) : Prop :=
  ∀ kv ∈ g.rooms, (kv.2.participants.map Participant.id).Nodup

theorem RegN_setRoom {g : Reg} {k : String} {r' : Room} (hn : RegN g)
    (hr' : (r'.participants.map Participant.id).Nodup) : RegN (setRoom g k r') := by
  intro kv hkv
  rcases mem_setRoom.mp hkv with ⟨kv0, _, _, rfl⟩ | ⟨hkv0, _⟩
  · exact hr'
  · exact hn kv hkv0

theorem RegN_withFresh {g : Reg} (k : String) (hn : RegN g) : RegN (withFresh g k) := by
  intro kv hkv
  rcases List.mem_append.mp hkv with hl | hr
  · exact hn kv hl
  · have : kv = (k, freshRoom k g.nextGen) := by simpa using hr
    rw [this]
    exact List.nodup_nil

theorem RegN_found {g : Reg} {k : String} {r : Room} (hn : RegN g)
    (h : findRoom g k = some r) : (r.participants.map Participant.id).Nodup :=
  hn (k, r) (findRoom_some_mem h)

theorem RegN_getRoom {g : Reg} (k : String) (hn : RegN g) : RegN (getRoom g k).1 := by
  cases h : findRoom g k with
  | some r => rw [getRoom_found h]; exact hn
  | none => rw [getRoom_miss h]; exact RegN_withFresh k hn

theorem nodup_ids_filter {ps : List Participant} (hp : (ps.map Participant.id).Nodup)
    (q : Participant → Bool) : ((ps.filter q).map Participant.id).Nodup :=
  List.Nodup.sublist (List.Sublist.map _ (List.filter_sublist ps)) hp

theorem RegN_remove {g : Reg} (k u : String) (sc : Bool) (hn : RegN g) :
    RegN (removeUserFromRoom g k u sc) := by
  cases h : findRoom g k with
  | some r =>
    by_cases hcond : ((r.participants.filter (fun p => p.id ≠ u)).isEmpty = true ∧ sc = false)
    · obtain ⟨hemp, hsc⟩ := hcond
      have hfil : r.participants.filter (fun p => p.id ≠ u) = [] := by
        cases hfl : r.participants.filter (fun p => p.id ≠ u) with
        | nil => rfl
        | cons a t => rw [hfl] at hemp; simp [List.isEmpty] at hemp
      rw [hsc, removeUser_found_cleanup h hfil]
      intro kv hkv
      exact hn kv (List.mem_filter.mp hkv).1
    · rw [removeUser_found_keep sc h hcond]
      exact RegN_setRoom hn (nodup_ids_filter (RegN_found hn h) _)
  | none =>
    cases sc with
    | false =>
      intro kv hkv
      rw [(removeUser_miss h).1] at hkv
      exact hn kv hkv
    | true =>
      rw [removeUser_miss_skip h]
      exact RegN_setRoom (RegN_withFresh k hn) (by simp [freshRoom])

theorem nodup_ids_add {ps : List Participant} (hp : (ps.map Participant.id).Nodup)
    (u : UserData) :
    (((ps.filter (fun p => p.id ≠ u.id) ++ [mkParticipant u]).map Participant.id)).Nodup := by
  rw [List.map_append]
  rw [List.nodup_append]
  refine ⟨nodup_ids_filter hp _, by simp, ?_⟩
  intro x hx
  obtain ⟨p, hp0, rfl⟩ := List.mem_map.mp hx
  have hne : p.id ≠ u.id := by simpa using (List.mem_filter.mp hp0).2
  simpa [mkParticipant] using hne

theorem RegN_addUser {g : Reg} (k : String) (u : UserData) (hn : RegN g) :
    RegN (addUserToRoom g k u) := by
  cases h : findRoom g k with
  | some r =>
    rw [addUser_found u h]
    exact RegN_setRoom hn (nodup_ids_add (RegN_found hn h) u)
  | none =>
    rw [addUser_miss_eq u h]
    exact RegN_setRoom (RegN_withFresh k hn) (by simp [freshRoom, mkParticipant])

theorem RegN_updateUser {g : Reg} (k u : String) (rdy : Bool) (hn : RegN g) :
    RegN (updateUser g k u rdy) := by
  cases h : findRoom g k with
  | some r =>
    have heq : updateUser g k u rdy = setRoom g k { r with participants := updateFirst r.participants u (fun p => { p with isReady := rdy }) } := by
      simp [updateUser, getRoom_found h]
    rw [heq]
    refine RegN_setRoom hn ?_
    rw [updateFirst_id_map r.participants u (fun p => { p with isReady := rdy }) (fun p => rfl)]
    exact RegN_found hn h
  | none =>
    have heq : updateUser g k u rdy = setRoom (withFresh g k) k { freshRoom k g.nextGen with participants := updateFirst (freshRoom k g.nextGen).participants u (fun p => { p with isReady := rdy }) } := by
      simp [updateUser, getRoom_miss h]
    rw [heq]
    exact RegN_setRoom (RegN_withFresh k hn) (by simp [freshRoom, updateFirst])

theorem RegN_changeUserRole {g : Reg} (k u nr : String) (hn : RegN g) :
    RegN (changeUserRole g k u nr).1 := by
  by_cases hok : (nr = "speaker" ∨ nr = "listener")
  · cases h : findRoom g k with
    | some r =>
      by_cases hany : r.participants.any (fun p => p.id = u) = true
      · have heq : (changeUserRole g k u nr).1 = setRoom g k { r with participants := updateFirst r.participants u (fun p => { p with role := nr }) } := by
          simp [changeUserRole, hok, getRoom_found h, hany]
        rw [heq]
        refine RegN_setRoom hn ?_
        rw [updateFirst_id_map r.participants u (fun p => { p with role := nr }) (fun p => rfl)]
        exact RegN_found hn h
      · have heq : (changeUserRole g k u nr).1 = g := by
          simp [changeUserRole, hok, getRoom_found h, hany]
        rw [heq]
        exact hn
    | none =>
      have hanyF : (freshRoom k g.nextGen).participants.any (fun p => p.id = u) = false := rfl
      have heq : (changeUserRole g k u nr).1 = withFresh g k := by
        simp [changeUserRole, hok, getRoom_miss h, hanyF]
      rw [heq]
      exact RegN_withFresh k hn
  · have heq : (changeUserRole g k u nr).1 = g := by
      simp [changeUserRole, hok]
    rw [heq]
    exact hn

theorem RegN_startTimer {g : Reg} (k : String) (hn : RegN g) :
    RegN (startSpeakingTimer g k) := by
  cases h : findRoom g k with
  | some r =>
    cases ha : r.discussion.active with
    | false => rw [startTimer_eq_inactive h ha]; exact hn
    | true =>
      rw [startTimer_eq_active h ha]
      intro kv hkv
      rcases mem_setRoom.mp hkv with ⟨kv0, _, _, rfl⟩ | ⟨hkv0, _⟩
      · show (r.participants.map Participant.id).Nodup
        exact RegN_found hn h
      · have : kv ∈ g.rooms := by
          rw [← clearTimer_rooms g r.discussion.timer]
          exact hkv0
        exact hn kv this
  | none =>
    rw [startTimer_eq_miss h]
    exact RegN_withFresh k hn

theorem RegN_endDiscussion {g : Reg} (k : String) (hn : RegN g) :
    RegN (endDiscussion g k).1 := by
  cases h : findRoom g k with
  | some r =>
    rw [endDiscussion_eq_found h]
    intro kv hkv
    rcases mem_setRoom.mp hkv with ⟨kv0, _, _, rfl⟩ | ⟨hkv0, _⟩
    · show (r.participants.map Participant.id).Nodup
      exact RegN_found hn h
    · have : kv ∈ g.rooms := by
        rw [← clearTimer_rooms g r.discussion.timer]
        exact hkv0
      exact hn kv this
  | none =>
    have heq : (endDiscussion g k).1 = setRoom (withFresh g k) k { freshRoom k g.nextGen with discussion := { (freshRoom k g.nextGen).discussion with timer := none, active := false, endedAt := some 0 } } := by
      simp [endDiscussion, getRoom_miss h, clearTimer_none, freshRoom, initialDiscussion]
    rw [heq]
    exact RegN_setRoom (RegN_withFresh k hn) (by simp [freshRoom])

theorem RegN_advance {g : Reg} (k : String) (hn : RegN g) :
    RegN (advanceToNextSpeaker g k).1 := by
  cases h : findRoom g k with
  | none =>
    have heq : (advanceToNextSpeaker g k).1 = withFresh g k := by
      have : (freshRoom k g.nextGen).discussion.active = false := rfl
      simp [advanceToNextSpeaker, getRoom_miss h, this]
    rw [heq]
    exact RegN_withFresh k hn
  | some r =>
    cases ha : r.discussion.active with
    | false =>
      have heq : (advanceToNextSpeaker g k).1 = g := by
        simp [advanceToNextSpeaker, getRoom_found h, ha]
      rw [heq]
      exact hn
    | true =>
      by_cases hlen : 0 < r.participants.length
      · by_cases hc : ((r.discussion.currentSpeakerIndex + 1) % r.participants.length = 0
            ∧ 3 < (if (r.discussion.currentSpeakerIndex + 1) % r.participants.length = 0 then r.discussion.round + 1 else r.discussion.round))
        · obtain ⟨hidx, hrnd⟩ := hc
          rw [if_pos hidx] at hrnd
          rw [advance_end_spec h ha hlen hidx hrnd]
          intro kv hkv
          rcases mem_setRoom.mp hkv with ⟨kv0, _, _, rfl⟩ | ⟨hkv0, _⟩
          · show (r.participants.map Participant.id).Nodup
            exact RegN_found hn h
          · have : kv ∈ g.rooms := by
              rw [← clearTimer_rooms g r.discussion.timer]
              exact hkv0
            exact hn kv this
        · rw [advance_cont_spec h ha hlen hc]
          intro kv hkv
          rcases mem_setRoom.mp hkv with ⟨kv0, _, _, rfl⟩ | ⟨hkv0, _⟩
          · show (r.participants.map Participant.id).Nodup
            exact RegN_found hn h
          · have : kv ∈ g.rooms := by
              rw [← clearTimer_rooms g r.discussion.timer]
              exact hkv0
            exact hn kv this
      · have hz : r.participants.length = 0 := by omega
        have heq : (advanceToNextSpeaker g k).1 = g := by
          simp [advanceToNextSpeaker, getRoom_found h, ha, hz]
        rw [heq]
        exact hn

theorem RegN_checkContinuation (cfg : Config) {g : Reg} (k : String) (hn : RegN g) :
    RegN (checkDiscussionContinuation cfg g k).1 := by
  cases h : findRoom g k with
  | none =>
    have heq : (checkDiscussionContinuation cfg g k).1 = withFresh g k := by
      have : (freshRoom k g.nextGen).discussion.active = false := rfl
      simp [checkDiscussionContinuation, getRoom_miss h, this]
    rw [heq]
    exact RegN_withFresh k hn
  | some r =>
    cases ha : r.discussion.active with
    | false =>
      have heq : (checkDiscussionContinuation cfg g k).1 = g := by
        simp [checkDiscussionContinuation, getRoom_found h, ha]
      rw [heq]
      exact hn
    | true =>
      by_cases hlt : r.participants.length < cfg.minParticipants
      · have heq : (checkDiscussionContinuation cfg g k).1 = (endDiscussion g k).1 := by
          simp [checkDiscussionContinuation, getRoom_found h, ha, hlt]
        rw [heq]
        exact RegN_endDiscussion k hn
      · have heq : (checkDiscussionContinuation cfg g k).1 = g := by
          simp [checkDiscussionContinuation, getRoom_found h, ha, hlt]
        rw [heq]
        exact hn

theorem RegN_timerFire {g : Reg} (h0 : Nat) (hn : RegN g) : RegN (timerFire g h0).1 := by
  cases hft : g.timers.find? (fun t0 => t0.handle = h0) with
  | none =>
    have heq : (timerFire g h0).1 = g := by simp [timerFire, hft]
    rw [heq]
    exact hn
  | some t =>
    cases hroom : findRoom g t.roomId with
    | none =>
      have heq : (timerFire g h0).1 = g := by simp [timerFire, hft, hroom]
      rw [heq]
      exact hn
    | some room =>
      by_cases hgen : room.gen = t.gen
      · have hnod : (room.participants.map Participant.id).Nodup := RegN_found hn hroom
        have htick : RegN (setRoom g t.roomId { room with discussion := { room.discussion with timeRemaining := room.discussion.timeRemaining - 1 } }) :=
          RegN_setRoom hn hnod
        by_cases hexp : room.discussion.timeRemaining - 1 ≤ 0
        · rw [timerFire_advances hft hroom hgen hexp]
          exact RegN_advance t.roomId htick
        · have heq : (timerFire g h0).1 = setRoom g t.roomId { room with discussion := { room.discussion with timeRemaining := room.discussion.timeRemaining - 1 } } := by
            simp [timerFire, hft, hroom, hgen, hexp]
          rw [heq]
          exact htick
      · have heq : (timerFire g h0).1 = g := by simp [timerFire, hft, hroom, hgen]
        rw [heq]
        exact hn

theorem RegN_resolve (cfg : Config) {s : ServerState} (i : Nat) (topic : String)
    (hn : RegN s.reg) : RegN (resolveTopic cfg s i topic).1.reg := by
  cases hp : s.pending.get? i with
  | none =>
    have heq : (resolveTopic cfg s i topic).1 = s := by
      unfold resolveTopic
      rw [hp]
    rw [heq]
    exact hn
  | some pd =>
    have heq : (resolveTopic cfg s i topic).1.reg = startSpeakingTimer
        (match findRoom s.reg pd.roomId with
         | some room => if room.gen = pd.gen then setRoom s.reg pd.roomId { room with discussion := { active := true, topic := some topic, currentSpeakerIndex := 0, speakingTime := cfg.speakingTime, timeRemaining := cfg.speakingTime, round := 1, timer := none, startedAt := some 0, endedAt := none } } else s.reg
         | none => s.reg) pd.roomId := by
      unfold resolveTopic
      rw [hp]
    rw [heq]
    apply RegN_startTimer
    cases hroom : findRoom s.reg pd.roomId with
    | none => exact hn
    | some room =>
      by_cases hgen : room.gen = pd.gen
      · simp only [hroom, hgen, if_true]
        have hnod2 : (room.participants.map Participant.id).Nodup := RegN_found hn hroom
        exact RegN_setRoom hn hnod2
      · simp only [hgen, if_false]
        exact hn

/-! ### Handler-level preservation -/

/-- Resolving a pending start while its captured room is not active (the
start-serialized condition) preserves timer health: the overwritten discussion
had no live slot to orphan. -/
theorem TReg_resolve (cfg : Config) {s : ServerState} (i : Nat) (topic : String)
    (hsafe : safeResolveB s i = true) (ht : TReg s.reg) :
    TReg (resolveTopic cfg s i topic).1.reg := by
  cases hp : s.pending.get? i with
  | none =>
    have heq : (resolveTopic cfg s i topic).1 = s := by
      unfold resolveTopic
      rw [hp]
    rw [heq]
    exact ht
  | some pd =>
    have hp2 : s.pending[i]? = some pd := by
      rw [← List.get?_eq_getElem?]
      exact hp
    cases hroom : findRoom s.reg pd.roomId with
    | none =>
      have heq : (resolveTopic cfg s i topic).1.reg = startSpeakingTimer s.reg pd.roomId := by
        simp [resolveTopic, hp2, hroom]
      rw [heq]
      exact TReg_startTimer _ ht
    | some room =>
      by_cases hgen : room.gen = pd.gen
      · have heq : (resolveTopic cfg s i topic).1.reg = startSpeakingTimer
            (setRoom s.reg pd.roomId { room with discussion := { active := true, topic := some topic, currentSpeakerIndex := 0, speakingTime := cfg.speakingTime, timeRemaining := cfg.speakingTime, round := 1, timer := none, startedAt := some 0, endedAt := none } }) pd.roomId := by
          simp [resolveTopic, hp2, hroom, hgen]
        rw [heq]
        have hina : room.discussion.active = false := by
          have h2 := hsafe
          simp only [safeResolveB, hp, hroom] at h2
          simpa [hgen] using h2
        have hslot0 : room.discussion.timer = none :=
          ht.2.2.2.2.2 (pd.roomId, room) (findRoom_some_mem hroom) hina
        exact TReg_startTimer _ (TReg_setRoom_sameTimer ht hroom (by rw [hslot0]) rfl (fun _ => rfl))
      · have heq : (resolveTopic cfg s i topic).1.reg = startSpeakingTimer s.reg pd.roomId := by
          simp [resolveTopic, hp2, hroom, hgen]
        rw [heq]
        exact TReg_startTimer _ ht

theorem onConnect_reg (s : ServerState) (sockId : String) (auth : Auth) :
    (onConnect s sockId auth).reg = s.reg := by
  unfold onConnect
  split <;> rfl

theorem setSocket_reg (s : ServerState) (k : SocketSt) : (setSocket s k).reg = s.reg := rfl

theorem getRoomParticipants_fst (g : Reg) (k : String) :
    (getRoomParticipants g k).1 = (getRoom g k).1 := rfl

/-- The synchronous discussion-start prefix only performs the getRoom lookup on
the registry (recording the pending continuation aside). -/
theorem begin_reg (cfg : Config) (s : ServerState) (k : String) :
    (checkAndStartDiscussionBegin cfg s k).reg = (getRoom s.reg k).1 := by
  simp only [checkAndStartDiscussionBegin]
  split <;> rfl

theorem RegN_begin (cfg : Config) {s : ServerState} (k : String) (hn : RegN s.reg) :
    RegN (checkAndStartDiscussionBegin cfg s k).reg := by
  rw [begin_reg]
  exact RegN_getRoom k hn

theorem RegN_foldl_remove {g : Reg} (rs : List String) (uid : String) (hn : RegN g) :
    RegN (rs.foldl (fun g0 r => removeUserFromRoom g0 r uid false) g) := by
  induction rs generalizing g with
  | nil => exact hn
  | cons r rs ih => exact ih (RegN_remove r uid false hn)

theorem RegN_onJoinRoom (cfg : Config) {s : ServerState} (sockId : String)
    (roomIdArg : Option String) (client : Option ClientUser) (hn : RegN s.reg) :
    RegN (onJoinRoom cfg s sockId roomIdArg client).reg := by
  cases hk : findSocket s sockId with
  | none =>
    simp only [onJoinRoom, hk]
    exact hn
  | some k =>
    simp only [onJoinRoom, hk]
    apply RegN_begin
    rw [setSocket_reg, getRoomParticipants_fst]
    exact RegN_getRoom _ (RegN_addUser _ _ (RegN_foldl_remove _ _ hn))

theorem RegN_onUserReady (cfg : Config) {s : ServerState} (sockId : String)
    (hn : RegN s.reg) : RegN (onUserReady cfg s sockId).reg := by
  cases hk : findSocket s sockId with
  | none =>
    simp only [onUserReady, hk]
    exact hn
  | some k =>
    cases hcr : k.currentRoom with
    | none =>
      simp only [onUserReady, hk, hcr]
      exact hn
    | some roomId =>
      simp only [onUserReady, hk, hcr]
      apply RegN_begin
      rw [setSocket_reg, getRoomParticipants_fst]
      exact RegN_getRoom _ (RegN_updateUser _ _ _ hn)

theorem RegN_onLeaveRoom {s : ServerState} (sockId : String) (hn : RegN s.reg) :
    RegN (onLeaveRoom s sockId).reg := by
  cases hk : findSocket s sockId with
  | none =>
    simp only [onLeaveRoom, hk]
    exact hn
  | some k =>
    cases hcr : k.currentRoom with
    | none =>
      simp only [onLeaveRoom, hk, hcr]
      exact hn
    | some roomId =>
      simp only [onLeaveRoom, hk, hcr]
      rw [setSocket_reg, getRoomParticipants_fst]
      exact RegN_getRoom _ (RegN_remove _ _ _ hn)

theorem RegN_onNextSpeaker {s : ServerState} (sockId : String) (hn : RegN s.reg) :
    RegN (onNextSpeaker s sockId).1.reg := by
  cases hk : findSocket s sockId with
  | none =>
    simp only [onNextSpeaker, hk]
    exact hn
  | some k =>
    cases hcr : k.currentRoom with
    | none =>
      simp only [onNextSpeaker, hk, hcr]
      exact hn
    | some roomId =>
      simp only [onNextSpeaker, hk, hcr]
      split
      · exact RegN_getRoom _ hn
      · exact RegN_advance _ (RegN_getRoom _ hn)

theorem RegN_onRoleChange {s : ServerState} (sockId : String) (data : RoleChangeData)
    (hn : RegN s.reg) : RegN (onRoleChange s sockId data).state.reg := by
  cases hk : findSocket s sockId with
  | none =>
    simp only [onRoleChange, hk]
    exact hn
  | some k =>
    cases hj : jsOrRoom data.roomId k.currentRoom with
    | none =>
      simp only [onRoleChange, hk, hj]
      exact hn
    | some rid =>
      simp only [onRoleChange, hk, hj]
      split
      · exact hn
      · split
        · split
          · exact RegN_getRoom _ hn
          · split
            · exact RegN_changeUserRole _ _ _ (RegN_getRoom _ hn)
            · exact RegN_changeUserRole _ _ _ (RegN_getRoom _ hn)
        · split
          · exact RegN_changeUserRole _ _ _ hn
          · exact RegN_changeUserRole _ _ _ hn

theorem RegN_onDisconnect (cfg : Config) {s : ServerState} (sockId : String)
    (hn : RegN s.reg) : RegN (onDisconnect cfg s sockId).reg := by
  cases hk : findSocket s sockId with
  | none =>
    simp only [onDisconnect, hk]
    exact hn
  | some k =>
    cases hcr : k.currentRoom with
    | none =>
      simp only [onDisconnect, hk, hcr]
      exact hn
    | some rid =>
      simp only [onDisconnect, hk, hcr]
      rw [getRoomParticipants_fst]
      exact RegN_checkContinuation cfg _ (RegN_getRoom _ (RegN_remove _ _ _ hn))

theorem RegN_step (cfg : Config) {s : ServerState} (e : Event) (hn : RegN s.reg) :
    RegN (step cfg s e).reg := by
  cases e with
  | connect id auth =>
    simp only [step]
    rw [onConnect_reg]
    exact hn
  | joinRoom id r c =>
    simp only [step]
    exact RegN_onJoinRoom cfg id r c hn
  | userReady id =>
    simp only [step]
    exact RegN_onUserReady cfg id hn
  | leaveRoom id =>
    simp only [step]
    exact RegN_onLeaveRoom id hn
  | nextSpeaker id =>
    simp only [step]
    exact RegN_onNextSpeaker id hn
  | roleChange id d =>
    simp only [step]
    exact RegN_onRoleChange id d hn
  | disconnect id =>
    simp only [step]
    exact RegN_onDisconnect cfg id hn
  | topicResolved i t =>
    simp only [step]
    exact RegN_resolve cfg i t hn
  | timerFire h =>
    simp only [step]
    exact RegN_timerFire h hn

theorem RegN_foldl_steps (cfg : Config) (es : List Event) :
    ∀ s : ServerState, RegN s.reg → RegN (es.foldl (step cfg) s).reg := by
  induction es with
  | nil => exact fun s hn => hn
  | cons e es ih => exact fun s hn => ih _ (RegN_step cfg e hn)

theorem TReg_begin (cfg : Config) {s : ServerState} (k : String) (ht : TReg s.reg) :
    TReg (checkAndStartDiscussionBegin cfg s k).reg := by
  rw [begin_reg]
  exact TReg_getRoom k ht

theorem TReg_foldl_remove {g : Reg} (rs : List String) (uid : String) (ht : TReg g) :
    TReg (rs.foldl (fun g0 r => removeUserFromRoom g0 r uid false) g) := by
  induction rs generalizing g with
  | nil => exact ht
  | cons r rs ih => exact ih (TReg_remove r uid false ht)

theorem TReg_onJoinRoom (cfg : Config) {s : ServerState} (sockId : String)
    (roomIdArg : Option String) (client : Option ClientUser) (ht : TReg s.reg) :
    TReg (onJoinRoom cfg s sockId roomIdArg client).reg := by
  cases hk : findSocket s sockId with
  | none =>
    simp only [onJoinRoom, hk]
    exact ht
  | some k =>
    simp only [onJoinRoom, hk]
    apply TReg_begin
    rw [setSocket_reg, getRoomParticipants_fst]
    exact TReg_getRoom _ (TReg_addUser _ _ (TReg_foldl_remove _ _ ht))

theorem TReg_onUserReady (cfg : Config) {s : ServerState} (sockId : String)
    (ht : TReg s.reg) : TReg (onUserReady cfg s sockId).reg := by
  cases hk : findSocket s sockId with
  | none =>
    simp only [onUserReady, hk]
    exact ht
  | some k =>
    cases hcr : k.currentRoom with
    | none =>
      simp only [onUserReady, hk, hcr]
      exact ht
    | some roomId =>
      simp only [onUserReady, hk, hcr]
      apply TReg_begin
      rw [setSocket_reg, getRoomParticipants_fst]
      exact TReg_getRoom _ (TReg_updateUser _ _ _ ht)

theorem TReg_onLeaveRoom {s : ServerState} (sockId : String) (ht : TReg s.reg) :
    TReg (onLeaveRoom s sockId).reg := by
  cases hk : findSocket s sockId with
  | none =>
    simp only [onLeaveRoom, hk]
    exact ht
  | some k =>
    cases hcr : k.currentRoom with
    | none =>
      simp only [onLeaveRoom, hk, hcr]
      exact ht
    | some roomId =>
      simp only [onLeaveRoom, hk, hcr]
      rw [setSocket_reg, getRoomParticipants_fst]
      exact TReg_getRoom _ (TReg_remove _ _ _ ht)

theorem TReg_onNextSpeaker {s : ServerState} (sockId : String) (ht : TReg s.reg) :
    TReg (onNextSpeaker s sockId).1.reg := by
  cases hk : findSocket s sockId with
  | none =>
    simp only [onNextSpeaker, hk]
    exact ht
  | some k =>
    cases hcr : k.currentRoom with
    | none =>
      simp only [onNextSpeaker, hk, hcr]
      exact ht
    | some roomId =>
      simp only [onNextSpeaker, hk, hcr]
      split
      · exact TReg_getRoom _ ht
      · exact TReg_advance _ (TReg_getRoom _ ht)

theorem TReg_onRoleChange {s : ServerState} (sockId : String) (data : RoleChangeData)
    (ht : TReg s.reg) : TReg (onRoleChange s sockId data).state.reg := by
  cases hk : findSocket s sockId with
  | none =>
    simp only [onRoleChange, hk]
    exact ht
  | some k =>
    cases hj : jsOrRoom data.roomId k.currentRoom with
    | none =>
      simp only [onRoleChange, hk, hj]
      exact ht
    | some rid =>
      simp only [onRoleChange, hk, hj]
      split
      · exact ht
      · split
        · split
          · exact TReg_getRoom _ ht
          · split
            · exact TReg_changeUserRole _ _ _ (TReg_getRoom _ ht)
            · exact TReg_changeUserRole _ _ _ (TReg_getRoom _ ht)
        · split
          · exact TReg_changeUserRole _ _ _ ht
          · exact TReg_changeUserRole _ _ _ ht

theorem TReg_onDisconnect (cfg : Config) {s : ServerState} (sockId : String)
    (ht : TReg s.reg) : TReg (onDisconnect cfg s sockId).reg := by
  cases hk : findSocket s sockId with
  | none =>
    simp only [onDisconnect, hk]
    exact ht
  | some k =>
    cases hcr : k.currentRoom with
    | none =>
      simp only [onDisconnect, hk, hcr]
      exact ht
    | some rid =>
      simp only [onDisconnect, hk, hcr]
      rw [getRoomParticipants_fst]
      exact TReg_checkContinuation cfg _ (TReg_getRoom _ (TReg_remove _ _ _ ht))

/-- One event preserves timer health, provided a topic resolution only runs
while its captured room is not active. -/
theorem TReg_step (cfg : Config) {s : ServerState} (e : Event)
    (hsafe : ∀ i t0, e = Event.topicResolved i t0 → safeResolveB s i = true)
    (ht : TReg s.reg) : TReg (step cfg s e).reg := by
  cases e with
  | connect id auth =>
    simp only [step]
    rw [onConnect_reg]
    exact ht
  | joinRoom id r c =>
    simp only [step]
    exact TReg_onJoinRoom cfg id r c ht
  | userReady id =>
    simp only [step]
    exact TReg_onUserReady cfg id ht
  | leaveRoom id =>
    simp only [step]
    exact TReg_onLeaveRoom id ht
  | nextSpeaker id =>
    simp only [step]
    exact TReg_onNextSpeaker id ht
  | roleChange id d =>
    simp only [step]
    exact TReg_onRoleChange id d ht
  | disconnect id =>
    simp only [step]
    exact TReg_onDisconnect cfg id ht
  | topicResolved i t =>
    simp only [step]
    exact TReg_resolve cfg i t (hsafe i t rfl) ht
  | timerFire h =>
    simp only [step]
    exact TReg_timerFire h ht

/-- Timer health of the empty starting registry. -/
theorem TReg_init : TReg initState.reg := by
  refine ⟨List.nodup_nil, List.nodup_nil, ?_, ?_, ?_, ?_⟩ <;>
    exact fun x hx => absurd hx (List.not_mem_nil x)

/-- Roster-identity health of the empty starting registry. -/
theorem RegN_init : RegN initState.reg :=
  fun kv hkv => absurd hkv (List.not_mem_nil kv)

/-- Every reachable state of a start-serialized suffix keeps timer health. -/
theorem TReg_foldl_steps (cfg : Config) (es : List Event) :
    ∀ s : ServerState, serialStartsB cfg s es = true → TReg s.reg →
      TReg ((es.foldl (step cfg) s)).reg := by
  induction es with
  | nil => exact fun s _ ht => ht
  | cons e es ih =>
    intro s hser ht
    have h12 := hser
    simp only [serialStartsB, Bool.and_eq_true] at h12
    refine ih _ h12.2 (TReg_step cfg e ?_ ht)
    intro i t0 he
    subst he
    exact h12.1

/-- A Nodup list whose elements all equal a constant has at most one element. -/
theorem length_le_one_of_nodup_const {α : Type} {l : List α} {c : α} (hnd : l.Nodup)
    (hc : ∀ a ∈ l, a = c) : l.length ≤ 1 := by
  cases l with
  | nil => simp
  | cons a t =>
    cases t with
    | nil => simp
    | cons b t2 =>
      exfalso
      have ha := hc a (by simp)
      have hb := hc b (by simp)
      have hne : a ≠ b := by
        have h1 := (List.nodup_cons.mp hnd).1
        exact fun h => h1 (h ▸ List.mem_cons_self b t2)
      exact hne (ha.trans hb.symm)

/-- In a healthy registry at most one live interval drives any given room. -/
theorem roomTimers_le_one {g : Reg} (ht : TReg g) (k : String) :
    (roomTimers g k).length ≤ 1 := by
  cases hrt : roomTimers g k with
  | nil => simp
  | cons t ts =>
    have hmem : ∀ u ∈ roomTimers g k, u ∈ g.timers ∧ u.roomId = k := by
      intro u hu
      simpa [roomTimers, List.mem_filter] using hu
    have ht0 : t ∈ g.timers ∧ t.roomId = k :=
      hmem t (by rw [hrt]; exact List.mem_cons_self t ts)
    obtain ⟨kv, hkv, hkey, hslot, hgen⟩ := ht.2.2.2.2.1 t ht0.1
    have hfind : findRoom g k = some kv.2 := by
      have h3 := findRoom_eq_of_mem ht.1 hkv
      rw [hkey, ht0.2] at h3
      exact h3
    have hconst : ∀ u ∈ roomTimers g k, u.handle = t.handle := by
      intro u hu
      obtain ⟨hu1, hu2⟩ := hmem u hu
      obtain ⟨kv2, hkv2, hkey2, hslot2, _⟩ := ht.2.2.2.2.1 u hu1
      have hfind2 : findRoom g k = some kv2.2 := by
        have h4 := findRoom_eq_of_mem ht.1 hkv2
        rw [hkey2, hu2] at h4
        exact h4
      have hkveq : kv2.2 = kv.2 := by
        rw [hfind2] at hfind
        exact Option.some.inj hfind
      rw [hkveq, hslot] at hslot2
      exact (Option.some.inj hslot2).symm
    have hndfull : (g.timers.map TimerRec.handle).Nodup := ht.2.1
    have hsub : List.Sublist (roomTimers g k) g.timers := List.filter_sublist g.timers
    have hnd : ((roomTimers g k).map TimerRec.handle).Nodup :=
      List.Nodup.sublist (hsub.map TimerRec.handle) hndfull
    have hlen : ((roomTimers g k).map TimerRec.handle).length ≤ 1 := by
      refine @length_le_one_of_nodup_const Nat _ t.handle hnd ?_
      intro a ha
      obtain ⟨u, hu, rfl⟩ := List.mem_map.mp ha
      exact hconst u hu
    rw [List.length_map] at hlen
    rw [hrt] at hlen
    exact hlen

/-- The continuation check leaves no room registered under its key that is both
active and below the configured minimum. -/
theorem checkContinuation_post (cfg : Config) (g : Reg) (k : String) (r' : Room)
    (hf : findRoom (checkDiscussionContinuation cfg g k).1 k = some r')
    (ha : r'.discussion.active = true) :
    cfg.minParticipants ≤ r'.participants.length := by
  cases h : findRoom g k with
  | none =>
    have heq : (checkDiscussionContinuation cfg g k).1 = withFresh g k := by
      have h1 : (freshRoom k g.nextGen).discussion.active = false := rfl
      simp [checkDiscussionContinuation, getRoom_miss h, h1]
    rw [heq, findRoom_withFresh_self h] at hf
    have h2 : r' = freshRoom k g.nextGen := (Option.some.inj hf).symm
    rw [h2] at ha
    exact absurd ha (by simp [freshRoom, initialDiscussion])
  | some r =>
    cases hact : r.discussion.active with
    | false =>
      have heq : (checkDiscussionContinuation cfg g k).1 = g := by
        simp [checkDiscussionContinuation, getRoom_found h, hact]
      rw [heq, h] at hf
      have h2 : r' = r := (Option.some.inj hf).symm
      rw [h2, hact] at ha
      exact absurd ha (by simp)
    | true =>
      by_cases hlt : r.participants.length < cfg.minParticipants
      · have heq : (checkDiscussionContinuation cfg g k).1 = (endDiscussion g k).1 := by
          simp [checkDiscussionContinuation, getRoom_found h, hact, hlt]
        rw [heq, endDiscussion_eq_found h] at hf
        rw [findRoom_setRoom_self, findRoom_clearTimer, h] at hf
        have h2 : r' = { r with discussion := { r.discussion with timer := none, active := false, endedAt := some 0 } } := by
          simpa using hf.symm
        rw [h2] at ha
        exact absurd ha (by simp)
      · have heq : (checkDiscussionContinuation cfg g k).1 = g := by
          simp [checkDiscussionContinuation, getRoom_found h, hact, hlt]
        rw [heq, h] at hf
        have h2 : r' = r := (Option.some.inj hf).symm
        rw [h2]
        omega

/-- On a known transport with a current room, the disconnect handler's registry
is exactly remove → roster refresh → continuation check for that room. -/
theorem onDisconnect_reg (cfg : Config) {s : ServerState} {sockId : String}
    {kk : SocketSt} {rid : String}
    (hk : findSocket s sockId = some kk) (hr : kk.currentRoom = some rid) :
    (onDisconnect cfg s sockId).reg =
      (checkDiscussionContinuation cfg
        (getRoomParticipants (removeUserFromRoom s.reg rid kk.userData.id false) rid).1
        rid).1 := by
  simp only [onDisconnect, hk, hr]

/-! ### Claim C2: roster identity uniqueness -/

/-- Claim C2: for every sequence of events processed from the fresh server — in
particular every mix of join-room, leave-room and disconnect events — no room's
roster ever contains two participant entries with the same identity: a join by
an identity already present replaces (removes, then re-appends) the existing
entry instead of adding a second one. -/
theorem claim_C2_unique_identity (cfg : Config) (es : List Event) :
    ∀ kv ∈ (run cfg es).reg.rooms, (kv.2.participants.map Participant.id).Nodup :=
  RegN_foldl_steps cfg es initState RegN_init

theorem claim_C2_witness :
    (("r", roomActive) ∈ (run cfgDefault traceActivePair).reg.rooms) ∧
    ((("r", roomActive) : String × Room).2.participants.map Participant.id).Nodup :=
  ⟨by decide,
   claim_C2_unique_identity cfgDefault traceActivePair ("r", roomActive) (by decide)⟩

/-! ### Claim C3: one timer per room, under start serialization -/

/-- Claim C3 (amended): the at-most-one-timer-per-room invariant holds in every
state reachable by a start-serialized trace — one in which each topic
resolution runs while its captured room is not active, as is the case whenever
the topic source answers before the next event (the local-fallback behaviour).
The code does not re-check the start guard after its await, so overlapped
start evaluations orphan the first interval (see the counterexample):
serialization is a genuine side condition, not a consequence of the code. -/
theorem claim_C3_one_timer (cfg : Config) (es : List Event)
    (hser : serialStartsB cfg initState es = true) (k : String) :
    (roomTimers (run cfg es).reg k).length ≤ 1 :=
  roomTimers_le_one (TReg_foldl_steps cfg es initState hser TReg_init) k

theorem claim_C3_witness :
    serialStartsB cfgDefault initState traceActivePair = true ∧
    (roomTimers (run cfgDefault traceActivePair).reg "r").length ≤ 1 :=
  ⟨by decide, claim_C3_one_timer cfgDefault traceActivePair (by decide) "r"⟩

/-! ### Claim C5: the below-minimum check on departure paths -/

/-- Claim C5 (amended): only the transport-disconnect path re-evaluates
discussion continuation — the explicit leave-room handler never does (see the
counterexample) — and on that path the guarantee holds: after a disconnect of
a transport whose current room is rid, if room rid is registered with an
Active discussion then its roster has at least minParticipants entries. -/
theorem claim_C5_disconnect_enforces_min (cfg : Config) (s : ServerState)
    (sockId : String) (kk : SocketSt) (rid : String) (r' : Room)
    (hk : findSocket s sockId = some kk) (hr : kk.currentRoom = some rid)
    (hf : findRoom (onDisconnect cfg s sockId).reg rid = some r')
    (ha : r'.discussion.active = true) :
    cfg.minParticipants ≤ r'.participants.length := by
  rw [onDisconnect_reg cfg hk hr] at hf
  exact checkContinuation_post cfg _ rid r' hf ha

theorem claim_C5_witness :
    findSocket sTrio "s3" = some sockC ∧ sockC.currentRoom = some "r" ∧
    findRoom (onDisconnect cfgMin2 sTrio "s3").reg "r" = some roomAfterDisc ∧
    roomAfterDisc.discussion.active = true ∧
    cfgMin2.minParticipants ≤ roomAfterDisc.participants.length :=
  ⟨by decide, by decide, by decide, by decide,
   claim_C5_disconnect_enforces_min cfgMin2 sTrio "s3" sockC "r" roomAfterDisc
     (by decide) (by decide) (by decide) (by decide)⟩

end GupShup
